import Mathlib

/-
Verification development for the windtunnel / turbulence workflow
simulation engine.  Python source files are shallowly embedded as Lean
definitions; external libraries (httpx, jinja2, jsonpath_ng, hashlib,
random, json) are modelled at their documented interfaces, either as
explicit parameters or as concrete Lean implementations, as noted at
each definition.
-/

namespace Windtunnel

/-- Python runtime values as they occur in the engine: JSON-like data
plus tuples, as produced by response parsing, extraction and scenario
configuration.  Dicts are association lists with string keys and no
duplicate keys (the JSON / Python dict invariant).  Floats are not
modelled; numeric data is `int`. -/
inductive PyVal where
  | none
  | bool (b : Bool)
  | int (n : Int)
  | str (s : String)
  | list (xs : List PyVal)
  | tuple (xs : List PyVal)
  | dict (kvs : List (String × PyVal))

mutual

/-- Python `==` on the modelled values: `True == 1`, `False == 0`,
numbers by value, lists/tuples ordered elementwise, dicts unordered by
key lookup (equal key count and every binding of the left dict present
in the right one; exact under the duplicate-free key invariant).  A
list never equals a tuple, mirroring Python. -/
def pyEq : PyVal → PyVal → Bool
  | .bool a, .bool b => a == b
  | .bool a, .int n => (if a then (1 : Int) else 0) == n
  | .int n, .bool a => n == (if a then (1 : Int) else 0)
  | .int m, .int n => m == n
  | .none, .none => true
  | .str s, .str t => s == t
  | .list xs, .list ys => pyEqList xs ys
  | .tuple xs, .tuple ys => pyEqList xs ys
  | .dict xs, .dict ys => xs.length == ys.length && pyEqDictSub xs ys
  | _, _ => false
termination_by a b => sizeOf a + sizeOf b

def pyEqList : List PyVal → List PyVal → Bool
  | [], [] => true
  | x :: xs, y :: ys => pyEq x y && pyEqList xs ys
  | _, _ => false
termination_by xs ys => sizeOf xs + sizeOf ys

def pyEqDictSub : List (String × PyVal) → List (String × PyVal) → Bool
  | [], _ => true
  | (k, v) :: rest, d2 => pyEqDictMem k v d2 && pyEqDictSub rest d2
termination_by d1 d2 => sizeOf d1 + sizeOf d2

def pyEqDictMem (k : String) (v : PyVal) : List (String × PyVal) → Bool
  | [] => false
  | (k2, v2) :: rest => if k == k2 then pyEq v v2 else pyEqDictMem k v rest
termination_by d => sizeOf v + sizeOf d

end

/-- Python text of a character for `repr` of strings inside containers:
apostrophe-quoted, with apostrophe and backslash escaped.  (Python
switches quote style when the string holds an apostrophe; the model
always uses apostrophe quotes with escapes, which only affects the
spelling of exotic needles in substring checks, never their presence.) -/
def pyQuote : Char := Char.ofNat 39

def pyReprCharText (c : Char) : String :=
  if c = pyQuote ∨ c = '\\' then String.mk ['\\', c] else String.mk [c]

/-- Python `repr` of a string value. -/
def pyReprStr (s : String) : String :=
  String.mk [pyQuote] ++ String.join (s.toList.map pyReprCharText) ++
    String.mk [pyQuote]

mutual

/-- Python `repr` of a modelled value (used for elements inside
container text). -/
def pyRepr : PyVal → String
  | .none => "None"
  | .bool b => if b then "True" else "False"
  | .int n => toString n
  | .str s => pyReprStr s
  | .list xs => "[" ++ pyReprSep xs ++ "]"
  | .tuple [x] => "(" ++ pyRepr x ++ ",)"
  | .tuple xs => "(" ++ pyReprSep xs ++ ")"
  | .dict kvs => "\x7b" ++ pyReprSepD kvs ++ "\x7d"
termination_by v => sizeOf v

def pyReprSep : List PyVal → String
  | [] => ""
  | [x] => pyRepr x
  | x :: xs => pyRepr x ++ ", " ++ pyReprSep xs
termination_by xs => sizeOf xs

def pyReprSepD : List (String × PyVal) → String
  | [] => ""
  | [(k, v)] => pyReprStr k ++ ": " ++ pyRepr v
  | (k, v) :: kvs => pyReprStr k ++ ": " ++ pyRepr v ++ ", " ++ pyReprSepD kvs
termination_by kvs => sizeOf kvs

end

/-- Python `str()` of a modelled value: identity on strings, `repr`
otherwise (for the container cases Python delegates to `repr`). -/
def pyStr : PyVal → String
  | .str s => s
  | v => pyRepr v

/-- Bool-valued substring test on character lists (Python `needle in hay`
for strings). -/
def charsInfix (needle hay : List Char) : Bool :=
  hay.tails.any (fun t => needle.isPrefixOf t)

def strIn (needle hay : String) : Bool :=
  charsInfix needle.toList hay.toList

namespace AssertRunner

/-- From `windtunnel/actions/assert_.py`, `AssertActionRunner._compare_values`,
contains branch: `str(expected) in actual` for strings, `expected in actual`
for lists/tuples (membership) and for dicts (Python key membership), `False`
otherwise.  The `except TypeError` guard (unhashable expected against a
dict) also yields `False`, which coincides with the key-membership test
on the modelled values. -/
def compareContains (actual expected : PyVal) : Bool :=
  match actual with
  | .str s => strIn (pyStr expected) s
  | .list xs => xs.any (fun item => pyEq expected item)
  | .tuple xs => xs.any (fun item => pyEq expected item)
  | .dict kvs => kvs.any (fun kv => pyEq expected (.str kv.1))
  | _ => false

end AssertRunner

namespace WaitRunner

/-- From `turbulence/actions/wait.py`, `WaitActionRunner._check_contains`:
list membership, string substring (stringifying the expected value),
dict **values** membership, `False` for everything else — including
tuples, which this variant does not special-case. -/
def checkContains (value expected : PyVal) : Bool :=
  match value with
  | .list xs => xs.any (fun item => pyEq expected item)
  | .str s => strIn (pyStr expected) s
  | .dict kvs => kvs.any (fun kv => pyEq expected kv.2)
  | _ => false

end WaitRunner

/- ---------------------------------------------------------------------
Template engine (`windtunnel/engine/template.py`).

The engine delegates general strings to jinja2 with default block
delimiters and `StrictUndefined`.  The external jinja2 renderer is
modelled for the fragment the engine uses: plain text passes through,
`\x7b\x7b path \x7d\x7d` interpolates a dotted context path (missing
name: UndefinedError), an unclosed variable delimiter is a syntax
error, and the block/comment delimiters `\x7b%` / `\x7b#` — which
jinja2 would still process — are represented by an explicit
`unsupported` error; no theorem below admits them in its scope.
--------------------------------------------------------------------- -/

namespace Template

abbrev Ctx := List (String × PyVal)

def ctxLookup (k : String) : Ctx → Option PyVal
  | [] => Option.none
  | (k2, v) :: rest => if k = k2 then some v else ctxLookup k rest

def isSpaceChar (c : Char) : Bool := c.isWhitespace

/-- Characters matched by the `[\w.]` class of `SINGLE_VAR_PATTERN`. -/
def isWordOrDot (c : Char) : Bool := c.isAlphanum || c == '_' || c == '.'

/-- Python `str.strip()` on a character list. -/
def stripChars (l : List Char) : List Char :=
  ((l.dropWhile isSpaceChar).reverse.dropWhile isSpaceChar).reverse

/-- `SINGLE_VAR_PATTERN.match(template.strip())`: the whole trimmed
string is one `\x7b\x7b\s*[\w.]+\s*\x7d\x7d` group; on a match the
source extracts `template.strip()[2:-2].strip()` as the variable
path. -/
def singleVarMatch (template : String) : Option String :=
  let t := stripChars template.toList
  if t.length < 4 then Option.none
  else if t.take 2 ≠ ['\x7b', '\x7b'] ∨ t.drop (t.length - 2) ≠ ['\x7d', '\x7d'] then
    Option.none
  else
    let mid := (t.drop 2).take (t.length - 4)
    let core := mid.dropWhile isSpaceChar
    let word := core.takeWhile isWordOrDot
    if word ≠ [] ∧ (core.drop word.length).all isSpaceChar then
      some (String.mk (stripChars mid))
    else Option.none

/-- `TemplateEngine._resolve_path`: walk the dotted path through nested
dicts; a missing key raises `KeyError(part)`.  The source's `hasattr`
fallback reaches Python object attributes (e.g. bound string methods),
which are outside the modelled data domain; on modelled values it
yields the same `KeyError`. -/
def resolveParts : List String → PyVal → Except String PyVal
  | [], cur => .ok cur
  | p :: rest, .dict kvs =>
    match ctxLookup p kvs with
    | some v => resolveParts rest v
    | Option.none => .error p
  | p :: _, _ => .error p

inductive JinjaErr where
  | undefinedVar (name : String)
  | syntaxError
  | unsupported
deriving Repr, DecidableEq

/-- One jinja variable expression: the engine only documents dotted
path access; any other expression is outside the modelled fragment. -/
def evalVarExpr (ctx : Ctx) (inner : String) : Except JinjaErr PyVal :=
  let core := stripChars inner.toList
  if core ≠ [] ∧ core.all isWordOrDot then
    match resolveParts ((String.mk core).splitOn ".") (.dict ctx) with
    | .ok v => .ok v
    | .error part => .error (.undefinedVar part)
  else .error .unsupported

mutual

/-- Jinja2 lexing/rendering pass over the raw character stream. -/
def jinjaScan (ctx : Ctx) : List Char → Except JinjaErr (List Char)
  | [] => .ok []
  | '\x7b' :: '\x7b' :: rest => jinjaVar ctx rest []
  | '\x7b' :: '%' :: _ => .error .unsupported
  | '\x7b' :: '#' :: _ => .error .unsupported
  | c :: rest => (jinjaScan ctx rest).map (c :: ·)
termination_by l => l.length

/-- Inside a `\x7b\x7b ... \x7d\x7d` variable block, accumulating the
inner expression; reaching the end of input without `\x7d\x7d` is a
jinja `TemplateSyntaxError`. -/
def jinjaVar (ctx : Ctx) : List Char → List Char → Except JinjaErr (List Char)
  | [], _ => .error .syntaxError
  | '\x7d' :: '\x7d' :: rest, acc =>
    match evalVarExpr ctx (String.mk acc.reverse) with
    | .error e => .error e
    | .ok v => (jinjaScan ctx rest).map (fun tail => (pyStr v).toList ++ tail)
  | c :: rest, acc => jinjaVar ctx rest (c :: acc)
termination_by l _ => l.length

end

/-- The source preparation done by the jinja2 lexer under the defaults of this Environment
(`newline_sequence="\\n"`, `keep_trailing_newline=False`):
`lines = newline_re.split(source)[::2]` cuts the source at every
`\\r\\n`, `\\r` or `\\n`, the trailing empty line of a source ending in
a newline is deleted, and the lines are rejoined with `"\\n"`.  Net
effect on the character stream, modeled here: every `\\r\\n` or lone
`\\r` becomes `\\n` (`normNL`), then one trailing newline is dropped
(`dropTrailingNL`). -/
def normNL : List Char → List Char
  | [] => []
  | '\r' :: '\n' :: rest => '\n' :: normNL rest
  | '\r' :: rest => '\n' :: normNL rest
  | c :: rest => c :: normNL rest

/-- `keep_trailing_newline=False`: a single newline, if present, is
stripped from the end of the normalized source. -/
def dropTrailingNL (l : List Char) : List Char :=
  if l.getLast? = some '\n' then l.dropLast else l

/-- The template text jinja2 actually lexes and renders. -/
def jinjaSource (l : List Char) : List Char := dropTrailingNL (normNL l)

/-- Errors escaping `render_string`: `TemplateError` (missing variable,
raised by the source) or an uncaught jinja2 exception propagating
through it (only `UndefinedError` is caught and converted). -/
inductive RenderErr where
  | templateError (template : String) (missingVar : String)
  | jinjaSyntaxError
  | jinjaUnsupported
deriving Repr, DecidableEq

/-- `TemplateEngine.render_string`: sole-variable mode preserves the
resolved runtime type; otherwise the string goes through jinja2 and
renders to a string. -/
def renderString (template : String) (ctx : Ctx) : Except RenderErr PyVal :=
  match singleVarMatch template with
  | some varPath =>
    match resolveParts (varPath.splitOn ".") (.dict ctx) with
    | .ok v => .ok v
    | .error _ => .error (.templateError template varPath)
  | Option.none =>
    match jinjaScan ctx (jinjaSource template.toList) with
    | .ok out => .ok (.str (String.mk out))
    | .error (.undefinedVar n) => .error (.templateError template n)
    | .error .syntaxError => .error .jinjaSyntaxError
    | .error .unsupported => .error .jinjaUnsupported

mutual

/-- `TemplateEngine.render_value`: strings through `render_string`,
dicts and lists recursively, everything else (numbers, bools, None —
and tuples, which the source does not special-case) unchanged. -/
def renderValue (v : PyVal) (ctx : Ctx) : Except RenderErr PyVal :=
  match v with
  | .str s => renderString s ctx
  | .dict kvs => (renderDict kvs ctx).map PyVal.dict
  | .list xs => (renderList xs ctx).map PyVal.list
  | other => .ok other
termination_by sizeOf v

/-- `TemplateEngine.render_dict`: renders values, keys unchanged. -/
def renderDict (kvs : List (String × PyVal)) (ctx : Ctx) :
    Except RenderErr (List (String × PyVal)) :=
  match kvs with
  | [] => .ok []
  | (k, v) :: rest => do
    let v2 ← renderValue v ctx
    let rest2 ← renderDict rest ctx
    .ok ((k, v2) :: rest2)
termination_by sizeOf kvs

/-- `TemplateEngine.render_list`. -/
def renderList (xs : List PyVal) (ctx : Ctx) : Except RenderErr (List PyVal) :=
  match xs with
  | [] => .ok []
  | x :: rest => do
    let x2 ← renderValue x ctx
    let rest2 ← renderList rest ctx
    .ok (x2 :: rest2)
termination_by sizeOf xs

end

mutual

/-- `TemplateEngine.has_templates`: a string "has templates" when it
contains both `\x7b\x7b` and `\x7d\x7d`; containers are checked
recursively (dict values only); all other values do not. -/
def hasTemplates : PyVal → Bool
  | .str s => strIn "\x7b\x7b" s && strIn "\x7d\x7d" s
  | .dict kvs => hasTemplatesDict kvs
  | .list xs => hasTemplatesList xs
  | _ => false
termination_by v => sizeOf v

def hasTemplatesList : List PyVal → Bool
  | [] => false
  | x :: xs => hasTemplates x || hasTemplatesList xs
termination_by xs => sizeOf xs

def hasTemplatesDict : List (String × PyVal) → Bool
  | [] => false
  | (_, v) :: kvs => hasTemplates v || hasTemplatesDict kvs
termination_by kvs => sizeOf kvs

end

/-- A string on which jinja2 rendering is a guaranteed identity: free
of every opening delimiter (`\x7b\x7b`, `\x7b%`, `\x7b#`), containing no
carriage return, and not ending in a newline — newline
normalization and the trailing-newline strip of the lexer touch
exactly the strings outside this fragment. -/
def jinjaFreeStr (s : String) : Bool :=
  !(strIn "\x7b\x7b" s) && !(strIn "\x7b%" s) && !(strIn "\x7b#" s) &&
  !(s.toList.any (· == '\r')) &&
  !(s.toList.getLast? == some '\n')

mutual

/-- Recursive jinja-delimiter freedom over the parts of a value that
`render_value` actually recurses into (dict values and list elements;
tuples and scalars pass through unrendered). -/
def jinjaFree : PyVal → Bool
  | .str s => jinjaFreeStr s
  | .dict kvs => jinjaFreeDict kvs
  | .list xs => jinjaFreeList xs
  | _ => true
termination_by v => sizeOf v

def jinjaFreeList : List PyVal → Bool
  | [] => true
  | x :: xs => jinjaFree x && jinjaFreeList xs
termination_by xs => sizeOf xs

def jinjaFreeDict : List (String × PyVal) → Bool
  | [] => true
  | (_, v) :: kvs => jinjaFree v && jinjaFreeDict kvs
termination_by kvs => sizeOf kvs

end

end Template

/- ---------------------------------------------------------------------
JSONL artifact readers (`windtunnel/storage/jsonl.py` and
`turbulence/engine/replay.py`).  A file is a list of physical lines;
the external `json.loads` is a parameter `parse` returning `none`
exactly when it would raise `json.JSONDecodeError`.
--------------------------------------------------------------------- -/

namespace Jsonl

/-- Python `str.strip()`. -/
def pyStripStr (s : String) : String := String.mk (Template.stripChars s.toList)

/-- `read_jsonl` (`windtunnel/storage/jsonl.py`): every non-blank line
is fed to `json.loads` with no exception handling, so the first
malformed line aborts the read with the decode error. -/
def read_jsonl {J : Type} (parse : String → Option J) :
    List String → Except String (List J)
  | [] => .ok []
  | line :: rest =>
    let t := pyStripStr line
    if t = "" then read_jsonl parse rest
    else
      match parse t with
      | Option.none => .error ("JSONDecodeError: " ++ t)
      | some j => (read_jsonl parse rest).map (j :: ·)

/-- `ReplayEngine.load_instance` scanning loop
(`turbulence/engine/replay.py`): blank lines are skipped, a
`json.JSONDecodeError` is caught and the line skipped, and the first
record whose `instance_id` matches (`isTarget`) is returned; reaching
the end of the file raises `InstanceNotFoundError` (`none` here). -/
def load_instance {J : Type} (parse : String → Option J) (isTarget : J → Bool) :
    List String → Option J
  | [] => Option.none
  | line :: rest =>
    let t := pyStripStr line
    if t = "" then load_instance parse isTarget rest
    else
      match parse t with
      | Option.none => load_instance parse isTarget rest
      | some j => if isTarget j then some j else load_instance parse isTarget rest

end Jsonl

/- ---------------------------------------------------------------------
Parallel executor (`turbulence/engine/executor.py`): result recording
and the per-instance exception handler.  Concurrency is linearised as
a completion-ordered list of instance outcomes; wall-clock datetimes
are abstract ticks.
--------------------------------------------------------------------- -/

namespace Executor

structure InstanceResult where
  instanceId : String
  correlationId : String
  scenarioId : String
  startedAt : Nat
  completedAt : Nat
  durationMs : ℚ
  passed : Option Bool
  error : Option String
deriving Repr, DecidableEq

structure ExecutionStats where
  totalInstances : Nat
  completed : Nat
  passed : Nat
  failed : Nat
  errors : Nat
  cancelled : Nat
deriving Repr, DecidableEq

def initStats (n : Nat) : ExecutionStats :=
  { totalInstances := n, completed := 0, passed := 0, failed := 0,
    errors := 0, cancelled := 0 }

abbrev Recorded := List InstanceResult × ExecutionStats

/-- `ParallelExecutor._record_result`: append to `results`, bump
`completed`, then classify — `if result.error:` (Python truthiness, so
an empty error string does not count), `elif passed is True`,
`elif passed is False`. -/
def recordResult (r : InstanceResult) (acc : Recorded) : Recorded :=
  let stats := acc.2
  let stats := { stats with completed := stats.completed + 1 }
  let stats :=
    if r.error.getD "" ≠ "" then { stats with errors := stats.errors + 1 }
    else if r.passed = some true then { stats with passed := stats.passed + 1 }
    else if r.passed = some false then { stats with failed := stats.failed + 1 }
    else stats
  (acc.1 ++ [r], stats)

/-- What one invocation of the per-instance producer
(`workflow_executor(i)`) does: return an `InstanceResult` or raise a
non-cancellation exception with text `e`. -/
inductive ExecOutcome where
  | ok (r : InstanceResult)
  | raises (e : String)
deriving Repr, DecidableEq

/-- `ParallelExecutor._execute_instance`, non-cancelled path.  On an
exception from the producer, the handler's first statement is
`logger.debug(...)` — but `executor.py` never defines or imports
`logger`, so evaluating it raises `NameError`, which supersedes the
handled exception and propagates out of the coroutine before the
error `InstanceResult` is constructed or recorded. -/
def executeInstance (outcome : ExecOutcome) (acc : Recorded) :
    Recorded × Except String (Option InstanceResult) :=
  match outcome with
  | .ok r => (recordResult r acc, .ok (some r))
  | .raises _ => (acc, .error "NameError: name logger is not defined")

/-- `ParallelExecutor._run_with_progress`: all instance tasks are
gathered with `return_exceptions=True`, so an exception escaping one
task is swallowed and every other task still runs and records. -/
def gatherRun (n : Nat) (completions : List (Nat × ExecOutcome)) : Recorded :=
  completions.foldl (fun acc c => (executeInstance c.2 acc).1) ([], initStats n)

/-- What the claim expects of a raising instance `i`: an error-typed
`InstanceResult` (passed=false, error text of the exception) recorded
for it.  `_execute_instance`'s dead error branch would build exactly
this shape (ids are synthesised from the index). -/
def claimedErrorResult (i : Nat) (e : String) (t : Nat) : InstanceResult :=
  { instanceId := "error_" ++ toString i, correlationId := "corr_" ++ toString i,
    scenarioId := "unknown", startedAt := t, completedAt := t,
    durationMs := 0, passed := some false, error := some e }

end Executor

/- ---------------------------------------------------------------------
HTTP action runners (`windtunnel/actions/http.py`,
`turbulence/actions/http.py`).  The external HTTP client is a
parameter delivering, per request, either a response or one of the
classified httpx exceptions; the external `jsonpath_ng` library is a
parameter `find` returning the match list, or an error exactly when
`jsonpath_ng.parse` would raise `JsonPathParserError`.  Request
composition (URL, merged headers, query, body, timeout) only feeds
that client and is absorbed into the outcome parameter.
--------------------------------------------------------------------- -/

namespace Http

abbrev Ctx := Template.Ctx

/-- Per-attempt record kept by the turbulence-variant HTTP runner
(its wall-clock ISO `timestamp` field is not modelled). -/
structure AttemptRec where
  attempt : Nat
  statusCode : Option Int
  ok : Bool
  latencyMs : ℚ
  error : Option String
deriving Repr, DecidableEq

/-- One entry of `turbulence_info["attempts"]`
(`windtunnel/turbulence/engine.py`). -/
structure TurbAttempt where
  ok : Bool
  statusCode : Option Int
  latencyMs : ℚ
  injectedLatencyMs : Option Int
  errors : List String
deriving Repr, DecidableEq

/-- The `turbulence_info` dict attached to the returned observation. -/
structure TurbInfo where
  service : String
  action : String
  retryCount : Nat
  timeoutAfterMs : Option Int
  latencyMs : Option Int
  attempts : List TurbAttempt
deriving Repr, DecidableEq

/-- Observation (`windtunnel/models/observation.py`, extended with the
`service`/`attempts` fields its turbulence-package counterpart adds).
It is a pydantic v2 model: list-typed fields are validated into fresh
lists at construction, so later mutation of the caller's local list is
invisible to the model instance. -/
structure Observation where
  ok : Bool
  statusCode : Option Int
  latencyMs : ℚ
  headers : List (String × String)
  body : Option PyVal
  errors : List String
  actionName : String
  service : Option String
  turbulence : Option TurbInfo
  attempts : List AttemptRec

/-- What one issued HTTP request comes back as.  `response` carries the
already-parsed body (`response.json()` when JSON-like, raw text as
`.str` otherwise).  `httpx.ConnectTimeout` is a `TimeoutException`
subclass and is therefore classified by the timeout branch in both
runners. -/
inductive HttpOutcome where
  | response (status : Int) (reason : String)
      (headers : List (String × String)) (body : PyVal)
  | timeoutExc (msg : String)
  | connectError (msg : String)
  | requestError (msg : String)
  | otherExc (msg : String)

/-- `jsonpath_ng.parse(expr).find(body)` with parse failures as
`.error e` (the `JsonPathParserError` text). -/
abbrev FindFn := String → PyVal → Except String (List PyVal)

def quoted (s : String) : String :=
  String.mk [pyQuote] ++ s ++ String.mk [pyQuote]

def didNotMatchMsg (path : String) : String :=
  "JSONPath " ++ quoted path ++ " did not match any values"

def invalidPathMsg (path e : String) : String :=
  "Invalid JSONPath " ++ quoted path ++ ": " ++ e

/-- Python dict assignment `context[key] = value`. -/
def ctxSet (k : String) (v : PyVal) : Ctx → Ctx
  | [] => [(k, v)]
  | (k2, v2) :: rest => if k = k2 then (k, v) :: rest else (k2, v2) :: ctxSet k v rest

/-- `HttpActionRunner._extract_values` (identical in both packages):
first match binds, no match appends the did-not-match error, a parse
error appends the invalid-path error; returns the updated context and
the collected error list. -/
def extractValues (find : FindFn) (body : PyVal) (cfg : List (String × String))
    (ctx : Ctx) : Ctx × List String :=
  cfg.foldl
    (fun acc kv =>
      match find kv.2 body with
      | .ok (m :: _) => (ctxSet kv.1 m acc.1, acc.2)
      | .ok [] => (acc.1, acc.2 ++ [didNotMatchMsg kv.2])
      | .error e => (acc.1, acc.2 ++ [invalidPathMsg kv.2 e]))
    (ctx, [])

structure RetryCfg where
  maxAttempts : Nat
  onStatus : List Int
  onTimeout : Bool
  onConnectionError : Bool
  backoff : String
  delayMs : ℚ
  baseDelayMs : ℚ
  maxDelayMs : ℚ
deriving Repr, DecidableEq

structure HttpActionCfg where
  name : String
  service : String
  extract : List (String × String)
  retry : Option RetryCfg
deriving Repr, DecidableEq

/-- Outcome classification shared by the single-shot windtunnel runner:
`(ok, status_code, response_headers, response_body, errors)`. -/
def classify : HttpOutcome → Bool × Option Int × List (String × String) ×
    Option PyVal × List String
  | .response st reason hdrs body =>
    let ok := decide (200 ≤ st ∧ st < 300)
    (ok, some st, hdrs, some body,
      if ok then [] else ["HTTP " ++ toString st ++ ": " ++ reason])
  | .timeoutExc m => (false, Option.none, [], Option.none, ["Request timeout: " ++ m])
  | .connectError m => (false, Option.none, [], Option.none, ["Request error: " ++ m])
  | .requestError m => (false, Option.none, [], Option.none, ["Request error: " ++ m])
  | .otherExc m => (false, Option.none, [], Option.none, ["Unexpected error: " ++ m])

/-- `windtunnel/actions/http.py`, `HttpActionRunner.execute`: one
request, classification, then the Observation is constructed; only
afterwards does extraction run, extending the already-copied local
`errors` list — pydantic validated `errors` into a fresh list, so the
extraction errors never reach `observation.errors`. -/
def executeW (find : FindFn) (action : HttpActionCfg) (outcome : HttpOutcome)
    (latencyMs : ℚ) (ctx : Ctx) : Observation × Ctx :=
  let (ok, status, hdrs, body, errs) := classify outcome
  let observation : Observation :=
    { ok := ok, statusCode := status, latencyMs := latencyMs, headers := hdrs,
      body := body, errors := errs, actionName := action.name,
      service := Option.none, turbulence := Option.none, attempts := [] }
  let updatedCtx :=
    match body with
    | some b =>
      if ok ∧ action.extract ≠ [] then (extractValues find b action.extract ctx).1
      else ctx
    | Option.none => ctx
  (observation, updatedCtx)

/-- Loop state of the turbulence-variant runner: the locals
`status_code`, `response_headers`, `response_body`, `ok`,
`final_errors`, `attempts` persist across attempts. -/
structure TLoopState where
  statusCode : Option Int
  headers : List (String × String)
  body : Option PyVal
  ok : Bool
  finalErrors : List String
  attempts : List AttemptRec

def tInitState : TLoopState :=
  { statusCode := Option.none, headers := [], body := Option.none,
    ok := false, finalErrors := [], attempts := [] }

/-- One attempt body of the turbulence-variant retry loop: classify the
outcome, decide retryability, record the attempt.  Returns the new
state, whether `should_retry` was set, and the attempt's error list. -/
def tAttempt (retry : Option RetryCfg) (idx : Nat) (outcome : HttpOutcome)
    (lat : ℚ) (st : TLoopState) : TLoopState × Bool :=
  let (st2, currentErrors, shouldRetry) :=
    match outcome with
    | .response s reason hdrs body =>
      let ok := decide (200 ≤ s ∧ s < 300)
      let errs := if ok then [] else ["HTTP " ++ toString s ++ ": " ++ reason]
      let retryable := !ok &&
        (match retry with
         | some rc => decide (s ∈ rc.onStatus)
         | Option.none => false)
      ({ st with statusCode := some s, headers := hdrs, body := some body, ok := ok },
        errs, retryable)
    | .timeoutExc m =>
      (st, ["Request timeout: " ++ m],
        match retry with | some rc => rc.onTimeout | Option.none => false)
    | .connectError m =>
      (st, ["Connection error: " ++ m],
        match retry with | some rc => rc.onConnectionError | Option.none => false)
    | .requestError m => (st, ["Request error: " ++ m], false)
    | .otherExc m => (st, ["Unexpected error: " ++ m], false)
  let arec : AttemptRec :=
    { attempt := idx, statusCode := st2.statusCode, ok := st2.ok,
      latencyMs := lat, error := currentErrors.head? }
  ({ st2 with
      attempts := st2.attempts ++ [arec],
      finalErrors := currentErrors }, shouldRetry)

/-- The `for attempt_idx in range(1, max_attempts + 1)` loop.  On
success it breaks; on a retryable failure before the last attempt it
sleeps the backoff (a pure time effect, not modelled) and continues —
leaving `final_errors` untouched; otherwise it stores the attempt's
errors in `final_errors` and breaks. -/
def tLoop (retry : Option RetryCfg) (maxA : Nat) (outcomes : Nat → HttpOutcome)
    (lats : Nat → ℚ) : Nat → Nat → TLoopState → TLoopState
  | _, 0, st => st
  | idx, remaining + 1, st =>
    let (st2, shouldRetry) := tAttempt retry idx (outcomes idx) (lats idx) st
    if st2.ok then { st2 with finalErrors := st.finalErrors }
    else if shouldRetry ∧ idx ≠ maxA then
      tLoop retry maxA outcomes lats (idx + 1) remaining
        { st2 with finalErrors := st.finalErrors }
    else st2

/-- `turbulence/actions/http.py`, `HttpActionRunner.execute`: the retry
loop, then the Observation, then extraction — this variant extends
`observation.errors` in place, so extraction errors are visible on the
returned Observation. -/
def executeT (find : FindFn) (action : HttpActionCfg)
    (outcomes : Nat → HttpOutcome) (lats : Nat → ℚ) (totalLatencyMs : ℚ)
    (ctx : Ctx) : Observation × Ctx :=
  let maxA := match action.retry with | some rc => rc.maxAttempts | Option.none => 1
  let st := tLoop action.retry maxA outcomes lats 1 maxA tInitState
  let observation : Observation :=
    { ok := st.ok, statusCode := st.statusCode, latencyMs := totalLatencyMs,
      headers := st.headers, body := st.body, errors := st.finalErrors,
      actionName := action.name, service := some action.service,
      turbulence := Option.none, attempts := st.attempts }
  match st.body with
  | some b =>
    if st.ok ∧ action.extract ≠ [] then
      let (ctx2, extractionErrors) := extractValues find b action.extract ctx
      ({ observation with errors := observation.errors ++ extractionErrors }, ctx2)
    else (observation, ctx)
  | Option.none => (observation, ctx)

end Http

/- ---------------------------------------------------------------------
SHA-256 (FIPS 180-4), a concrete model of the external
`hashlib.sha256` used by the turbulence engine for seed derivation.
Machine words are `Nat` reduced mod `2 ^ 32`.
--------------------------------------------------------------------- -/

namespace Sha256

def w32 (n : Nat) : Nat := n % 2 ^ 32

def rotr (n x : Nat) : Nat := w32 (x >>> n ||| x <<< (32 - n))

def notw (x : Nat) : Nat := w32 (x ^^^ (2 ^ 32 - 1))

def ch (x y z : Nat) : Nat := w32 ((x &&& y) ^^^ (notw x &&& z))

def maj (x y z : Nat) : Nat := w32 ((x &&& y) ^^^ (x &&& z) ^^^ (y &&& z))

def bigS0 (x : Nat) : Nat := rotr 2 x ^^^ rotr 13 x ^^^ rotr 22 x

def bigS1 (x : Nat) : Nat := rotr 6 x ^^^ rotr 11 x ^^^ rotr 25 x

def smallS0 (x : Nat) : Nat := rotr 7 x ^^^ rotr 18 x ^^^ (x >>> 3)

def smallS1 (x : Nat) : Nat := rotr 17 x ^^^ rotr 19 x ^^^ (x >>> 10)

def K : List Nat := [
  1116352408, 1899447441, 3049323471, 3921009573,
  961987163, 1508970993, 2453635748, 2870763221,
  3624381080, 310598401, 607225278, 1426881987,
  1925078388, 2162078206, 2614888103, 3248222580,
  3835390401, 4022224774, 264347078, 604807628,
  770255983, 1249150122, 1555081692, 1996064986,
  2554220882, 2821834349, 2952996808, 3210313671,
  3336571891, 3584528711, 113926993, 338241895,
  666307205, 773529912, 1294757372, 1396182291,
  1695183700, 1986661051, 2177026350, 2456956037,
  2730485921, 2820302411, 3259730800, 3345764771,
  3516065817, 3600352804, 4094571909, 275423344,
  430227734, 506948616, 659060556, 883997877,
  958139571, 1322822218, 1537002063, 1747873779,
  1955562222, 2024104815, 2227730452, 2361852424,
  2428436474, 2756734187, 3204031479, 3329325298]

def H0 : List Nat := [
  0x6a09e667, 0xbb67ae85, 0x3c6ef372, 0xa54ff53a,
  0x510e527f, 0x9b05688c, 0x1f83d9ab, 0x5be0cd19]

/-- `k` bytes, big-endian, of `n`. -/
def natToBytesBE : Nat → Nat → List Nat
  | 0, _ => []
  | k + 1, n => natToBytesBE k (n >>> 8) ++ [n % 256]

/-- Message padding: `0x80`, zeros to 56 mod 64, 8-byte big-endian bit
length. -/
def pad (msg : List Nat) : List Nat :=
  let zeros := (55 + 64 - (msg.length + 1 - 1) % 64) % 64
  msg ++ [0x80] ++ List.replicate zeros 0 ++ natToBytesBE 8 (8 * msg.length)

def bytesToWords : List Nat → List Nat
  | b0 :: b1 :: b2 :: b3 :: rest =>
    (b0 <<< 24 ||| b1 <<< 16 ||| b2 <<< 8 ||| b3) :: bytesToWords rest
  | _ => []

def toBlocks : List Nat → List (List Nat)
  | [] => []
  | b :: rest => ((b :: rest).take 64) :: toBlocks ((b :: rest).drop 64)
termination_by l => l.length
decreasing_by simp; omega

/-- Message-schedule extension from 16 to 64 words. -/
def schedule (w16 : List Nat) : List Nat :=
  (List.range 48).foldl
    (fun w _ =>
      let t := w.length
      w ++ [w32 (smallS1 (w.getD (t - 2) 0) + w.getD (t - 7) 0 +
        smallS0 (w.getD (t - 15) 0) + w.getD (t - 16) 0)])
    w16

structure Regs where
  a : Nat
  b : Nat
  c : Nat
  d : Nat
  e : Nat
  f : Nat
  g : Nat
  hh : Nat
deriving Repr, DecidableEq

def roundStep (r : Regs) (kw : Nat × Nat) : Regs :=
  let t1 := w32 (r.hh + bigS1 r.e + ch r.e r.f r.g + kw.1 + kw.2)
  let t2 := w32 (bigS0 r.a + maj r.a r.b r.c)
  { a := w32 (t1 + t2), b := r.a, c := r.b, d := r.c,
    e := w32 (r.d + t1), f := r.e, g := r.f, hh := r.g }

def compress (hs : List Nat) (block : List Nat) : List Nat :=
  let w := schedule (bytesToWords block)
  let init : Regs :=
    { a := hs.getD 0 0, b := hs.getD 1 0, c := hs.getD 2 0, d := hs.getD 3 0,
      e := hs.getD 4 0, f := hs.getD 5 0, g := hs.getD 6 0, hh := hs.getD 7 0 }
  let fin := (K.zip w).foldl roundStep init
  [w32 (hs.getD 0 0 + fin.a), w32 (hs.getD 1 0 + fin.b),
    w32 (hs.getD 2 0 + fin.c), w32 (hs.getD 3 0 + fin.d),
    w32 (hs.getD 4 0 + fin.e), w32 (hs.getD 5 0 + fin.f),
    w32 (hs.getD 6 0 + fin.g), w32 (hs.getD 7 0 + fin.hh)]

/-- The eight 32-bit state words of the SHA-256 digest of a byte
string. -/
def sha256Words (msg : List Nat) : List Nat :=
  (toBlocks (pad msg)).foldl compress H0

def wordBytesBE (w : Nat) : List Nat :=
  [(w >>> 24) % 256, (w >>> 16) % 256, (w >>> 8) % 256, w % 256]

/-- The 32 digest bytes (big-endian word serialisation, FIPS). -/
def sha256Bytes (msg : List Nat) : List Nat :=
  ((sha256Words msg).map wordBytesBE).flatten

def hexDigitChar : Nat → Char
  | 0 => '0' | 1 => '1' | 2 => '2' | 3 => '3' | 4 => '4'
  | 5 => '5' | 6 => '6' | 7 => '7' | 8 => '8' | 9 => '9'
  | 10 => 'a' | 11 => 'b' | 12 => 'c' | 13 => 'd' | 14 => 'e'
  | _ => 'f'

def hexVal : Char → Nat
  | '0' => 0 | '1' => 1 | '2' => 2 | '3' => 3 | '4' => 4
  | '5' => 5 | '6' => 6 | '7' => 7 | '8' => 8 | '9' => 9
  | 'a' => 10 | 'b' => 11 | 'c' => 12 | 'd' => 13 | 'e' => 14
  | _ => 15

def byteHexChars (b : Nat) : List Char :=
  [hexDigitChar (b / 16), hexDigitChar (b % 16)]

/-- `hashlib.sha256(x).hexdigest()` as a character list. -/
def hexDigestChars (msg : List Nat) : List Char :=
  ((sha256Bytes msg).map byteHexChars).flatten

/-- Python `int(s, 16)` on a hex-digit string. -/
def parseHexChars (l : List Char) : Nat :=
  l.foldl (fun acc c => acc * 16 + hexVal c) 0

end Sha256

/- ---------------------------------------------------------------------
CPython `random.Random(seed).randint(a, b)` — stdlib, external to the
repository.  The MT19937 generator core is a parameter: `draws i` is
the raw output of the `i`-th `getrandbits` call of the seeded
generator; `randint`/`_randbelow_with_getrandbits` are modelled from
CPython.  The rejection loop runs on explicit fuel (`none` at
exhaustion stands for CPython looping further).
--------------------------------------------------------------------- -/

namespace PyRandom

/-- Python `int.bit_length()`. -/
def bitLength (n : Nat) : Nat := if n = 0 then 0 else Nat.log2 n + 1

/-- `_randbelow_with_getrandbits`: draw `k`-bit values until one is
below `n`. -/
def randbelowLoop (draws : Nat → Nat) (n : Nat) : Nat → Nat → Option Nat
  | 0, _ => Option.none
  | fuel + 1, i =>
    let r := draws i
    if r < n then some r else randbelowLoop draws n fuel (i + 1)

/-- `Random.randint(a, b)` = `randrange(a, b + 1)`: width `b + 1 - a`,
`ValueError` when empty, otherwise `a + _randbelow(width)` with
`getrandbits(width.bit_length())` draws (masked to that many bits, as
the generator core guarantees). -/
def randint (draws : Nat → Nat) (a b : Int) (fuel : Nat) : Except String Int :=
  let width := b + 1 - a
  if width ≤ 0 then .error "ValueError: empty range for randrange" else
  match randbelowLoop (fun i => draws i % 2 ^ bitLength width.toNat)
      width.toNat fuel 0 with
  | some r => .ok (a + (r : Int))
  | Option.none => .error "rejection sampling fuel exhausted"

end PyRandom

/- ---------------------------------------------------------------------
Turbulence engine (`windtunnel/turbulence/engine.py`).
--------------------------------------------------------------------- -/

namespace Turb

structure LatencyCfg where
  min : Int
  max : Int
deriving Repr, DecidableEq

structure TurbulencePolicy where
  latencyMs : Option LatencyCfg
  timeoutAfterMs : Option Int
  retryCount : Option Nat
deriving Repr, DecidableEq

/-- `f"{self._seed}:{instance_id}:{service_name}:{action_name}:{attempt}"`. -/
def payload (baseSeed : Int) (instanceId serviceName actionName : String)
    (attempt : Nat) : String :=
  toString baseSeed ++ ":" ++ instanceId ++ ":" ++ serviceName ++ ":" ++
    actionName ++ ":" ++ toString attempt

def payloadBytes (baseSeed : Int) (instanceId serviceName actionName : String)
    (attempt : Nat) : List Nat :=
  (payload baseSeed instanceId serviceName actionName attempt).toUTF8.toList.map
    (·.toNat)

/-- `TurbulenceEngine._derive_seed`:
`int(hashlib.sha256(payload.encode("utf-8")).hexdigest()[:8], 16)`. -/
def deriveSeed (baseSeed : Int) (instanceId serviceName actionName : String)
    (attempt : Nat) : Nat :=
  Sha256.parseHexChars
    ((Sha256.hexDigestChars
      (payloadBytes baseSeed instanceId serviceName actionName attempt)).take 8)

/-- The specification wording: the first 32 bits of the SHA-256 digest
(the leading four digest bytes, big-endian). -/
def specFirst32Bits (digestBytes : List Nat) : Nat :=
  (digestBytes.take 4).foldl (fun acc b => acc * 256 + b) 0

/-- Seeded MT19937 core (external): `core seed i` is the raw output of
the `i`-th `getrandbits` call of `random.Random(seed)`. -/
abbrev RngCore := Nat → Nat → Nat

/-- `TurbulenceEngine._pick_latency`: none without a latency policy,
otherwise `random.Random(derived_seed).randint(min, max)`. -/
def pickLatency (core : RngCore) (fuel : Nat) (baseSeed : Int)
    (instanceId actionName serviceName : String) (attempt : Nat)
    (policy : TurbulencePolicy) : Except String (Option Int) :=
  match policy.latencyMs with
  | Option.none => .ok Option.none
  | some lc =>
    let seed := deriveSeed baseSeed instanceId serviceName actionName attempt
    (PyRandom.randint (core seed) lc.min lc.max fuel).map some

/-- The synthesized Observation of an injected timeout. -/
def timeoutObs (actionName : String) (timeoutAfter : Int) : Http.Observation :=
  { ok := false, statusCode := Option.none, latencyMs := (timeoutAfter : ℚ),
    headers := [], body := Option.none,
    errors := ["Injected timeout after " ++ toString timeoutAfter ++ "ms"],
    actionName := actionName, service := Option.none,
    turbulence := Option.none, attempts := [] }

/-- What one attempt observes: under an injected deadline (`timesOut`
tells whether `asyncio.wait_for` expires on this attempt) the
synthesized timeout Observation, otherwise the result of the `n`-th
`execute()` call. -/
def attemptOutcome (policy : TurbulencePolicy) (actionName : String)
    (ctx : Http.Ctx) (execRes : Nat → Http.Observation × Http.Ctx)
    (timesOut : Nat → Bool) (attempt : Nat) : Http.Observation × Http.Ctx :=
  match policy.timeoutAfterMs with
  | some t => if timesOut attempt then (timeoutObs actionName t, ctx)
              else execRes attempt
  | Option.none => execRes attempt

/-- One iteration of `TurbulenceEngine.apply`'s attempt loop: sample
the injected latency (the sleep is a pure time effect), run the action
under the optional injected deadline, and record the attempt. -/
def applyAttempt (core : RngCore) (fuel : Nat) (policy : TurbulencePolicy)
    (actionName serviceName instanceId : String) (baseSeed : Int)
    (ctx : Http.Ctx) (execRes : Nat → Http.Observation × Http.Ctx)
    (timesOut : Nat → Bool) (attempt : Nat) (info : Http.TurbInfo) :
    Except String (Http.TurbInfo × (Http.Observation × Http.Ctx)) := do
  let injected ← pickLatency core fuel baseSeed instanceId actionName
    serviceName attempt policy
  let info1 :=
    match injected with
    | some v => { info with latencyMs := some v }
    | Option.none => info
  let (obs, updCtx) := attemptOutcome policy actionName ctx execRes timesOut attempt
  let entry : Http.TurbAttempt :=
    { ok := obs.ok, statusCode := obs.statusCode, latencyMs := obs.latencyMs,
      injectedLatencyMs := injected, errors := obs.errors }
  pure ({ info1 with attempts := info1.attempts ++ [entry] }, (obs, updCtx))

/-- The `for attempt in range(attempts)` loop of
`TurbulenceEngine.apply`, ascending from `attempt` with `remaining`
iterations left. -/
def applyLoop (core : RngCore) (fuel : Nat) (policy : TurbulencePolicy)
    (actionName serviceName instanceId : String) (baseSeed : Int)
    (ctx : Http.Ctx) (execRes : Nat → Http.Observation × Http.Ctx)
    (timesOut : Nat → Bool) :
    Nat → Nat → Http.TurbInfo × Option (Http.Observation × Http.Ctx) →
    Except String (Http.TurbInfo × Option (Http.Observation × Http.Ctx))
  | _, 0, acc => .ok acc
  | attempt, remaining + 1, acc => do
    let (info, last) ← applyAttempt core fuel policy actionName serviceName
      instanceId baseSeed ctx execRes timesOut attempt acc.1
    applyLoop core fuel policy actionName serviceName instanceId baseSeed ctx
      execRes timesOut (attempt + 1) remaining (info, some last)

/-- `TurbulenceEngine.apply`: run `1 + retry_count` attempts, attach the
`turbulence` info to the last observation, return it with the last
context regardless of success. -/
def applyT (core : RngCore) (fuel : Nat) (policy : TurbulencePolicy)
    (actionName serviceName instanceId : String) (baseSeed : Int)
    (ctx : Http.Ctx) (execRes : Nat → Http.Observation × Http.Ctx)
    (timesOut : Nat → Bool) : Except String (Http.Observation × Http.Ctx) := do
  let retryCount := policy.retryCount.getD 0
  let attempts := 1 + retryCount
  let init : Http.TurbInfo :=
    { service := serviceName, action := actionName, retryCount := retryCount,
      timeoutAfterMs := policy.timeoutAfterMs, latencyMs := Option.none,
      attempts := [] }
  let (info, last) ← applyLoop core fuel policy actionName serviceName
    instanceId baseSeed ctx execRes timesOut 0 attempts (init, Option.none)
  match last with
  | Option.none => .error "RuntimeError: Turbulence execution failed to produce a result"
  | some (obs, c) => .ok ({ obs with turbulence := some info }, c)

/-- The turbulence-attempt record the `n`-th loop iteration produces,
written directly from the `n`-th attempt's outcome and latency sample
(used to state that `apply` records the attempts in order). -/
def attemptEntry (core : RngCore) (fuel : Nat) (policy : TurbulencePolicy)
    (actionName serviceName instanceId : String) (baseSeed : Int)
    (ctx : Http.Ctx) (execRes : Nat → Http.Observation × Http.Ctx)
    (timesOut : Nat → Bool) (n : Nat) : Http.TurbAttempt :=
  let o := (attemptOutcome policy actionName ctx execRes timesOut n).1
  { ok := o.ok, statusCode := o.statusCode, latencyMs := o.latencyMs,
    injectedLatencyMs :=
      ((pickLatency core fuel baseSeed instanceId actionName serviceName n
        policy).toOption).getD Option.none,
    errors := o.errors }

/-- Bound check for a sampled latency: whenever `_pick_latency` yields
a value, the value is within the policy latency bounds. -/
def latencyInRange (r : Except String (Option Int)) (p : TurbulencePolicy) : Bool :=
  match r, p.latencyMs with
  | .ok (some v), some lc => decide (lc.min ≤ v ∧ v ≤ lc.max)
  | .ok (some _), Option.none => false
  | _, _ => true

end Turb

/- ---------------------------------------------------------------------
Wait action runner (`turbulence/actions/wait.py`): the polling loop.
Wall-clock readings and poll outcomes are an environment indexed by
the iteration number; float seconds are rationals.  The loop carries
explicit fuel; `none` at exhaustion stands for a run that needs more
iterations.
--------------------------------------------------------------------- -/

namespace WaitRunner

structure Expectation where
  statusCode : Option Int
  jsonpath : Option String
  equals : Option PyVal
  contains : Option PyVal

/-- `WaitActionRunner._check_condition`: conjunctive status-code and
jsonpath checks; jsonpath parse errors and any exception yield
`False`. -/
def checkCondition (find : Http.FindFn) (expect : Expectation) (body : PyVal)
    (status : Option Int) : Bool :=
  (match expect.statusCode with
   | some sc => decide (status = some sc)
   | Option.none => true) &&
  (match expect.jsonpath with
   | Option.none => true
   | some jp =>
     match find jp body with
     | .error _ => false
     | .ok [] => false
     | .ok (v :: _) =>
       (match expect.equals with
        | some ev => pyEq v ev
        | Option.none => true) &&
       (match expect.contains with
        | some cv => checkContains v cv
        | Option.none => true))

structure PollAttempt where
  attemptNumber : Nat
  timestampMs : ℚ
  latencyMs : ℚ
  statusCode : Option Int
  body : Option PyVal
  conditionMet : Bool
  error : Option String

structure WaitObservation where
  ok : Bool
  statusCode : Option Int
  latencyMs : ℚ
  headers : List (String × String)
  body : Option PyVal
  errors : List String
  actionName : String
  attempts : List PollAttempt
  totalAttempts : Nat
  timedOut : Bool

/-- What one poll request comes back as: a classified error message or
a response (status, parsed body). -/
inductive PollResult where
  | failure (err : String)
  | success (status : Int) (body : PyVal)

/-- Environment of one loop iteration: the monotonic-clock reading at
the top of the iteration (seconds since start) and the poll's result
and timings. -/
structure WaitEnv where
  elapsedS : ℚ
  poll : PollResult
  pollLatencyMs : ℚ
  pollTimestampMs : ℚ

/-- `f"Timeout after \x7belapsed:.1f\x7ds (\x7bn\x7d attempts)"`; the
one-decimal float formatting is rendered as the exact rational
instead. -/
def timeoutMsg (elapsedS : ℚ) (attempts : Nat) : String :=
  "Timeout after " ++ toString elapsedS ++ "s (" ++ toString attempts ++
    " attempts)"

/-- The loop locals of `WaitActionRunner.execute`. -/
structure WaitState where
  attemptNumber : Nat
  conditionMet : Bool
  lastBody : Option PyVal
  lastStatus : Option Int
  errors : List String
  timedOut : Bool
  attempts : List PollAttempt

def initWaitState : WaitState :=
  { attemptNumber := 0, conditionMet := false, lastBody := Option.none,
    lastStatus := Option.none, errors := [], timedOut := false, attempts := [] }

/-- The `while True` polling loop, one-to-one with the source: check
the overall timeout at the top, poll, evaluate the condition only on
error-free polls (otherwise `condition_met` keeps its previous value),
record the attempt, break on success, and break with a timeout when
the computed sleep would not be positive. -/
def waitLoop (find : Http.FindFn) (expect : Expectation)
    (timeoutS intervalS : ℚ) (env : Nat → WaitEnv) :
    Nat → WaitState → Option WaitState
  | 0, _ => Option.none
  | fuel + 1, st =>
    let n := st.attemptNumber + 1
    let e := env st.attemptNumber
    let elapsed := e.elapsedS
    if elapsed ≥ timeoutS then
      some { st with
        attemptNumber := n, timedOut := true,
        errors := st.errors ++ [timeoutMsg elapsed (n - 1)] }
    else
      let pollError : Option String :=
        match e.poll with
        | .failure msg => some msg
        | .success _ _ => Option.none
      let pollStatus : Option Int :=
        match e.poll with
        | .failure _ => Option.none
        | .success s _ => some s
      let pollBody : Option PyVal :=
        match e.poll with
        | .failure _ => Option.none
        | .success _ b => some b
      let st1 :=
        match e.poll with
        | .failure _ => st
        | .success s b => { st with lastStatus := some s, lastBody := some b }
      let condMet :=
        match e.poll with
        | .failure _ => st.conditionMet
        | .success s b => checkCondition find expect b (some s)
      let attempt : PollAttempt :=
        { attemptNumber := n, timestampMs := e.pollTimestampMs,
          latencyMs := e.pollLatencyMs, statusCode := pollStatus,
          body := pollBody, conditionMet := condMet, error := pollError }
      let st2 := { st1 with
        attemptNumber := n, conditionMet := condMet,
        attempts := st1.attempts ++ [attempt] }
      if condMet then some st2
      else
        let remaining := timeoutS - elapsed
        let sleepTime := min intervalS remaining
        if sleepTime ≤ 0 then
          some { st2 with
            timedOut := true,
            errors := st2.errors ++ [timeoutMsg elapsed n] }
        else waitLoop find expect timeoutS intervalS env fuel st2

/-- Final `WaitObservation` assembly (headers are not tracked for wait
actions; total latency is a clock reading). -/
def finalObs (actionName : String) (totalLatencyMs : ℚ) (st : WaitState) :
    WaitObservation :=
  { ok := st.conditionMet, statusCode := st.lastStatus,
    latencyMs := totalLatencyMs, headers := [], body := st.lastBody,
    errors := st.errors, actionName := actionName, attempts := st.attempts,
    totalAttempts := st.attempts.length, timedOut := st.timedOut }

/-- `WaitActionRunner.execute` (the returned context is an unchanged
copy of the input context and is omitted). -/
def executeWait (find : Http.FindFn) (expect : Expectation)
    (actionName : String) (timeoutS intervalS totalLatencyMs : ℚ)
    (env : Nat → WaitEnv) (fuel : Nat) : Option WaitObservation :=
  (waitLoop find expect timeoutS intervalS env fuel initWaitState).map
    (finalObs actionName totalLatencyMs)

/-- The claimed invariants of every produced `WaitObservation`:
`ok` iff the final recorded attempt met the condition, never both `ok`
and `timed_out`, `total_attempts` is the length of the attempt log,
and a timeout always carries an error message. -/
def waitInvariant (obs : WaitObservation) : Bool :=
  (obs.ok == ((obs.attempts.getLast?.map (·.conditionMet)).getD false)) &&
  !(obs.ok && obs.timedOut) &&
  (obs.totalAttempts == obs.attempts.length) &&
  (!obs.timedOut || !obs.errors.isEmpty)

end WaitRunner

/- ---------------------------------------------------------------------
Scenario runner (`turbulence/engine/scenario_runner.py`,
`ScenarioRunner.execute_flow`): the per-step delay/jitter sleeps and
the yielded step sequence.  Action execution is abstracted to the
per-step `observation.ok` outcome (`results i`), which is all the flow
control observes.
--------------------------------------------------------------------- -/

namespace Scenario

inductive FlowEvent where
  | sleep (totalDelayMs : Int)
  | step (index : Nat) (ok : Bool)
deriving Repr, DecidableEq

/-- The `for step_index, action in enumerate(scenario.flow)` loop from
step `i` with `remaining` steps left: accumulate the step-delay only
when `step_index > 0`, always accumulate the jitter, sleep when the
total is positive, execute, and stop after a failed step if
`stop_when.any_action_fails`. -/
def flowLoop (stepDelayMs jitterMs : Int) (stopOnActionFail : Bool)
    (results : Nat → Bool) : Nat → Nat → List FlowEvent
  | _, 0 => []
  | i, remaining + 1 =>
    let total := (if i > 0 then stepDelayMs else 0) + jitterMs
    let evs := (if total > 0 then [FlowEvent.sleep total] else []) ++
      [FlowEvent.step i (results i)]
    if !results i && stopOnActionFail then evs
    else evs ++ flowLoop stepDelayMs jitterMs stopOnActionFail results
      (i + 1) remaining

/-- `ScenarioRunner.execute_flow` over a flow of `numSteps` actions. -/
def executeFlow (stepDelayMs jitterMs : Int) (stopOnActionFail : Bool)
    (results : Nat → Bool) (numSteps : Nat) : List FlowEvent :=
  flowLoop stepDelayMs jitterMs stopOnActionFail results 0 numSteps

end Scenario

/- ---------------------------------------------------------------------
Safe expression evaluator (`windtunnel/evaluation/sandbox.py`).  The
eval-mode Python AST is the inductive `Expr` below: one constructor
per node type the validator can meet, covering every whitelisted node
plus representative disallowed ones (lambda, assignment expression,
set/dict comprehensions, starred, f-strings); operator node types are
carried as kinds on their parent.  `ast.parse` (the only way to obtain
an AST) is upstream of this model.
--------------------------------------------------------------------- -/

namespace Sandbox

inductive BinK where
  | add | sub | mult | div | mod | pow | floorDiv
  | bitOr | bitAnd | bitXor | lshift | rshift | matMult
deriving Repr, DecidableEq

inductive UnK where
  | usub | uadd | notOp | invert
deriving Repr, DecidableEq

inductive CmpK where
  | eq | ne | lt | le | gt | ge | inOp | notInOp | isOp | isNotOp
deriving Repr, DecidableEq

inductive BoolK where
  | andOp | orOp
deriving Repr, DecidableEq

/-- A comprehension clause target: a simple name or anything else
(tuple destructuring etc., which the validator rejects). -/
inductive CompTarget where
  | nameT (s : String)
  | otherT
deriving Repr, DecidableEq

mutual

inductive Expr where
  | const (v : PyVal)
  | name (id : String)
  | boolOp (op : BoolK) (values : List Expr)
  | binOp (l : Expr) (op : BinK) (r : Expr)
  | unaryOp (op : UnK) (e : Expr)
  | compare (l : Expr) (ops : List CmpK) (comparators : List Expr)
  | call (f : Expr) (args : List Expr) (kwargValues : List Expr)
  | listE (xs : List Expr)
  | tupleE (xs : List Expr)
  | setE (xs : List Expr)
  | dictE (keys : List Expr) (values : List Expr)
  | subscript (v : Expr) (idx : Expr)
  | sliceE (lo : Option Expr) (hi : Option Expr) (step : Option Expr)
  | attr (v : Expr) (a : String)
  | ifExp (c : Expr) (t : Expr) (e : Expr)
  | listComp (elt : Expr) (gens : List Comp)
  | genExp (elt : Expr) (gens : List Comp)
  | lambdaE (body : Expr)
  | namedExpr (target : String) (value : Expr)
  | setComp (elt : Expr) (gens : List Comp)
  | dictComp (key : Expr) (value : Expr) (gens : List Comp)
  | starred (e : Expr)
  | joinedStr (parts : List Expr)

inductive Comp where
  | mk (target : CompTarget) (iter : Expr) (ifs : List Expr)

end

def Comp.target : Comp → CompTarget
  | .mk t _ _ => t

def Comp.iter : Comp → Expr
  | .mk _ i _ => i

def Comp.ifs : Comp → List Expr
  | .mk _ _ fs => fs

/-- `ALLOWED_FUNCTIONS` from the source. -/
def allowedFunctions : List String :=
  ["sum", "len", "min", "max", "any", "all", "range"]

/-- `ALLOWED_ATTRIBUTES` from the source. -/
def allowedAttributes : List String :=
  ["startswith", "endswith", "lower", "upper", "strip", "split", "get"]

/-- The validator construction in `_validate_expression`:
`\x7b"body", "headers", "context"\x7d ∪ ALLOWED_FUNCTIONS`. -/
def baseNames : List String :=
  ["body", "headers", "context"] ++ allowedFunctions

/-- Membership of an operator node type in `_allowed_nodes`
(`Add ... FloorDiv`; the bitwise/shift/matmul operator nodes are
absent from the tuple). -/
def binAllowed : BinK → Bool
  | .bitOr | .bitAnd | .bitXor | .lshift | .rshift | .matMult => false
  | _ => true

/-- `USub`, `UAdd`, `Not` are allowed; `Invert` is not listed. -/
def unAllowed : UnK → Bool
  | .invert => false
  | _ => true

def nodeErr : String := "Disallowed expression node"
def nameErr (id : String) : String := "Disallowed name: " ++ id
def attrErr (a : String) : String := "Attribute access not allowed: " ++ a
def callErr : String := "Only approved functions may be called"
def compTargetErr : String := "Only simple names are allowed in comprehensions"

/-- `visit_Attribute`'s gate: dunder attributes or anything outside
`ALLOWED_ATTRIBUTES` is rejected. -/
def attrBad (a : String) : Bool :=
  a.startsWith "__" || decide (a ∉ allowedAttributes)

/-- First phase of `_visit_comprehension`: every generator target must
be a plain name; collect the bound names in order. -/
def collectTargets : List Comp → Except String (List String)
  | [] => .ok []
  | c :: rest =>
    match c.target with
    | .nameT s => (collectTargets rest).map (s :: ·)
    | .otherT => .error compTargetErr

mutual

/-- `_ExpressionValidator.visit` with its `visit_Name` /
`visit_Attribute` / `visit_Call` / comprehension overrides and
`generic_visit` recursion (AST field order).  Every raise in the
source is an `ExpressionSecurityError`, so the error type carries just
the message. -/
def validate (allowed : List String) : Expr → Except String Unit
  | .const _ => .ok ()
  | .name id => if id ∈ allowed then .ok () else .error (nameErr id)
  | .boolOp _ vs => validateList allowed vs
  | .binOp l op r => do
    validate allowed l
    if binAllowed op then pure () else .error nodeErr
    validate allowed r
  | .unaryOp op e => do
    if unAllowed op then pure () else .error nodeErr
    validate allowed e
  | .compare l _ rs => do
    validate allowed l
    validateList allowed rs
  | .call f args kwargValues => do
    (match f with
     | .name id => if id ∈ allowedFunctions then .ok () else .error callErr
     | .attr v a =>
       if attrBad a then .error (attrErr a) else validate allowed v
     | _ => .error callErr)
    validateList allowed args
    validateList allowed kwargValues
  | .listE xs => validateList allowed xs
  | .tupleE xs => validateList allowed xs
  | .setE xs => validateList allowed xs
  | .dictE ks vs => do
    validateList allowed ks
    validateList allowed vs
  | .subscript v i => do
    validate allowed v
    validate allowed i
  | .sliceE lo hi step => do
    validateOpt allowed lo
    validateOpt allowed hi
    validateOpt allowed step
  | .attr v a => if attrBad a then .error (attrErr a) else validate allowed v
  | .ifExp c t e => do
    validate allowed c
    validate allowed t
    validate allowed e
  | .listComp elt gens => validateCompExpr allowed elt gens
  | .genExp elt gens => validateCompExpr allowed elt gens
  | .lambdaE _ => .error nodeErr
  | .namedExpr _ _ => .error nodeErr
  | .setComp _ _ => .error nodeErr
  | .dictComp _ _ _ => .error nodeErr
  | .starred _ => .error nodeErr
  | .joinedStr _ => .error nodeErr
termination_by e => sizeOf e

def validateList (allowed : List String) : List Expr → Except String Unit
  | [] => .ok ()
  | e :: rest => do
    validate allowed e
    validateList allowed rest
termination_by xs => sizeOf xs

def validateOpt (allowed : List String) : Option Expr → Except String Unit
  | Option.none => .ok ()
  | some e => validate allowed e
termination_by o => sizeOf o

/-- `_visit_comprehension`: collect targets, extend the allowed-name
set with all of them, then visit every generator's iterable and `if`
clauses, then the element — all with the extended set, which is
restored afterwards (a pure effect here). -/
def validateCompExpr (allowed : List String) (elt : Expr) (gens : List Comp) :
    Except String Unit := do
  let targets ← collectTargets gens
  let allowed2 := allowed ++ targets
  validateGens allowed2 gens
  validate allowed2 elt
termination_by sizeOf elt + sizeOf gens
decreasing_by
  all_goals simp_wf
  · cases elt <;> simp
  · cases gens <;> simp

def validateGens (allowed : List String) : List Comp → Except String Unit
  | [] => .ok ()
  | ⟨_, iter, ifs⟩ :: rest => do
    validate allowed iter
    validateList allowed ifs
    validateGens allowed rest
termination_by gens => sizeOf gens

end

/-- The names a comprehension binds, as the claim reads them: the
simple-name targets. -/
def targetsOf (gens : List Comp) : List String :=
  gens.filterMap (fun c => match c.target with
    | .nameT s => some s
    | .otherT => Option.none)

mutual

/-- The claim's notion of a sandbox violation contained in an
expression: a node type outside the whitelist (including operator
node kinds), a name reference outside the allowed set plus locally
bound comprehension targets, or an attribute outside the whitelist or
starting with a double underscore. -/
def violation (allowed : List String) : Expr → Bool
  | .const _ => false
  | .name id => decide (id ∉ allowed)
  | .boolOp _ vs => violationList allowed vs
  | .binOp l op r => !binAllowed op || violation allowed l || violation allowed r
  | .unaryOp op e => !unAllowed op || violation allowed e
  | .compare l _ rs => violation allowed l || violationList allowed rs
  | .call f args kwargValues =>
    (match f with
     | .name id => decide (id ∉ allowed)
     | .attr v a => attrBad a || violation allowed v
     | other => violation allowed other) ||
    violationList allowed args || violationList allowed kwargValues
  | .listE xs => violationList allowed xs
  | .tupleE xs => violationList allowed xs
  | .setE xs => violationList allowed xs
  | .dictE ks vs => violationList allowed ks || violationList allowed vs
  | .subscript v i => violation allowed v || violation allowed i
  | .sliceE lo hi step =>
    violationOpt allowed lo || violationOpt allowed hi || violationOpt allowed step
  | .attr v a => attrBad a || violation allowed v
  | .ifExp c t e => violation allowed c || violation allowed t || violation allowed e
  | .listComp elt gens => compViolation allowed elt gens
  | .genExp elt gens => compViolation allowed elt gens
  | .lambdaE _ => true
  | .namedExpr _ _ => true
  | .setComp _ _ => true
  | .dictComp _ _ _ => true
  | .starred _ => true
  | .joinedStr _ => true
termination_by e => sizeOf e

def violationList (allowed : List String) : List Expr → Bool
  | [] => false
  | e :: rest => violation allowed e || violationList allowed rest
termination_by xs => sizeOf xs

def violationOpt (allowed : List String) : Option Expr → Bool
  | Option.none => false
  | some e => violation allowed e
termination_by o => sizeOf o

/-- Claim-side scoping of a comprehension: its targets are locally
bound for the generators and the element. -/
def compViolation (allowed : List String) (elt : Expr) (gens : List Comp) : Bool :=
  let allowed2 := allowed ++ targetsOf gens
  gensViolation allowed2 gens || violation allowed2 elt
termination_by sizeOf elt + sizeOf gens
decreasing_by
  all_goals simp_wf
  · cases elt <;> simp
  · cases gens <;> simp

def gensViolation (allowed : List String) : List Comp → Bool
  | [] => false
  | ⟨_, iter, ifs⟩ :: rest =>
    violation allowed iter || violationList allowed ifs ||
      gensViolation allowed rest
termination_by gens => sizeOf gens

end

structure EvalEnv where
  body : PyVal
  headers : Template.Ctx
  context : Template.Ctx

inductive ExprErr where
  | security (msg : String)
  | timeout
  | evalError (msg : String)

/-- The external evaluation machinery behind
`eval(compile(tree, ...), ..., safe_locals)` together with the guarded
aggregator closures: any function from the validated AST and the bound
environment to a value, a timeout, or an evaluation error. -/
abbrev EvalOracle := Expr → EvalEnv → Except ExprErr PyVal

/-- `SafeExpressionEvaluator.evaluate`: `_validate_expression` first —
an `ExpressionSecurityError` propagates and `eval` is never reached —
then the compiled evaluation. -/
def evaluate (oracle : EvalOracle) (expression : Expr) (env : EvalEnv) :
    Except ExprErr PyVal :=
  match validate baseNames expression with
  | .error m => .error (.security m)
  | .ok () => oracle expression env

/-- Discriminator used by the sandbox theorems. -/
def isSecurityError : Except ExprErr PyVal → Bool
  | .error (.security _) => true
  | _ => false

end Sandbox

/-- The contains semantics exactly as the specification words them
(§4.9): list/tuple membership, substring for strings (stringifying the
expected value), membership among a map VALUES, false otherwise. -/
def specContains (actual expected : PyVal) : Bool :=
  match actual with
  | .list xs => xs.any (fun item => pyEq expected item)
  | .tuple xs => xs.any (fun item => pyEq expected item)
  | .str s => strIn (pyStr expected) s
  | .dict kvs => kvs.any (fun kv => pyEq expected kv.2)
  | _ => false

/- =====================================================================
Theorems
===================================================================== -/

/-- C9 counterexample: with step delay 0 and timing jitter 5, a sleep
of 5 ms happens before the very first step (index 0) of a one-step
flow — refuting "before the first step (i = 0) no delay or jitter
sleep occurs". -/
theorem scenario_first_step_sleeps_counterexample :
    (Scenario.executeFlow 0 5 false (fun _ => true) 1).head? =
      some (Scenario.FlowEvent.sleep 5) := rfl

/-- C9 (amended): before each step the runner sleeps the step delay
(only when the index is positive) plus the timing jitter (always,
including before the first step), and only when that total is
positive; so the first event of the remaining flow from step `i` is
that sleep, or the step itself when the total is not positive. -/
theorem scenario_step_delay_amended (sd j : Int) (stop : Bool)
    (res : Nat → Bool) (i r : Nat) (hr : 0 < r) :
    (Scenario.flowLoop sd j stop res i r).head? =
      if 0 < (if 0 < i then sd else 0) + j
      then some (Scenario.FlowEvent.sleep ((if 0 < i then sd else 0) + j))
      else some (Scenario.FlowEvent.step i (res i)) := by
  obtain ⟨r, rfl⟩ : ∃ r2, r = r2 + 1 := ⟨r - 1, by omega⟩
  show (Scenario.flowLoop sd j stop res i (r + 1)).head? = _
  rw [Scenario.flowLoop]
  simp only [gt_iff_lt]
  by_cases hpos : 0 < (if 0 < i then sd else 0) + j
  · simp [hpos]
    split <;> simp
  · simp [hpos, if_neg]
    split <;> simp

/-- Witness for `scenario_step_delay_amended` at a concrete input:
jitter 3 and step delay 2 sleep 3 ms before step 0. -/
theorem scenario_step_delay_amended_witness :
    (Scenario.flowLoop 2 3 false (fun _ => true) 0 1).head? =
      some (Scenario.FlowEvent.sleep 3) := by
  have h := scenario_step_delay_amended 2 3 false (fun _ => true) 0 1 (by decide)
  simpa using h

/-- C1: the per-instance exception handler in
`ParallelExecutor._execute_instance` references the undefined module
global `logger`, so a raising producer triggers a `NameError` before
the error `InstanceResult` is built: nothing is recorded for that
instance (no result, `errors` stays 0), while the other instances
still complete and record normally (`gather(..., return_exceptions=
True)` swallows the escaped exception). -/
theorem executor_exception_not_recorded :
    (Executor.executeInstance (.raises "boom")
        ([], Executor.initStats 2)).2 =
      .error "NameError: name logger is not defined" ∧
    Executor.gatherRun 2
        [(0, .raises "boom"),
         (1, .ok { instanceId := "inst_1", correlationId := "corr_1",
                   scenarioId := "s", startedAt := 0, completedAt := 0,
                   durationMs := 1, passed := some true,
                   error := Option.none })] =
      ([{ instanceId := "inst_1", correlationId := "corr_1",
          scenarioId := "s", startedAt := 0, completedAt := 0,
          durationMs := 1, passed := some true, error := Option.none }],
       { totalInstances := 2, completed := 1, passed := 1, failed := 0,
         errors := 0, cancelled := 0 }) := by
  exact ⟨rfl, rfl⟩

/-- C2: on a 2xx response whose single configured extraction path
matches nothing, the turbulence-package runner returns the
Observation with `ok = true` and the did-not-match message in its
errors, while the windtunnel runner computes the same message but
loses it (it extends a local list after pydantic copied it), returning
`errors = []`. -/
theorem http_extraction_miss_divergence :
    (Http.executeW (fun _ _ => .ok [])
        { name := "no-match", service := "api",
          extract := [("missing", "$.nonexistent.path")],
          retry := Option.none }
        (.response 200 "OK" [] (.dict [("id", PyVal.int 123)])) 1 []).1.ok
      = true ∧
    (Http.executeW (fun _ _ => .ok [])
        { name := "no-match", service := "api",
          extract := [("missing", "$.nonexistent.path")],
          retry := Option.none }
        (.response 200 "OK" [] (.dict [("id", PyVal.int 123)])) 1 []).1.errors
      = [] ∧
    (Http.executeT (fun _ _ => .ok [])
        { name := "no-match", service := "api",
          extract := [("missing", "$.nonexistent.path")],
          retry := Option.none }
        (fun _ => .response 200 "OK" [] (.dict [("id", PyVal.int 123)]))
        (fun _ => 1) 1 []).1.ok = true ∧
    (Http.executeT (fun _ _ => .ok [])
        { name := "no-match", service := "api",
          extract := [("missing", "$.nonexistent.path")],
          retry := Option.none }
        (fun _ => .response 200 "OK" [] (.dict [("id", PyVal.int 123)]))
        (fun _ => 1) 1 []).1.errors
      = [Http.didNotMatchMsg "$.nonexistent.path"] := by
  refine ⟨rfl, rfl, rfl, rfl⟩

/-- C3 counterexample: for the map `\x7b"a": "b"\x7d` and expected
value `"b"` (a map value, so the claim says the check passes) the
assert runner's contains is false — Python `x in dict` tests keys; and
for the tuple `(1,)` with expected `1` the wait runner's contains is
false — it special-cases only `list`. -/
theorem contains_claim_counterexample :
    AssertRunner.compareContains (.dict [("a", .str "b")]) (.str "b") = false ∧
    specContains (.dict [("a", .str "b")]) (.str "b") = true ∧
    WaitRunner.checkContains (.tuple [.int 1]) (.int 1) = false ∧
    specContains (.tuple [.int 1]) (.int 1) = true := by
  refine ⟨?_, ?_, ?_, ?_⟩ <;>
    simp [AssertRunner.compareContains, WaitRunner.checkContains,
      specContains, pyEq, pyEqList]

/-- C3 (amended): the wait runner's contains agrees with the
specification semantics except on tuples, which it maps to false; the
assert runner's contains agrees with it except on maps, where it tests
membership among the map's KEYS instead of its values. -/
theorem contains_semantics_amended (actual expected : PyVal) :
    (WaitRunner.checkContains actual expected =
      match actual with
      | .tuple _ => false
      | _ => specContains actual expected) ∧
    (AssertRunner.compareContains actual expected =
      match actual with
      | .dict kvs => (kvs.map Prod.fst).any (fun k => pyEq expected (.str k))
      | _ => specContains actual expected) := by
  constructor
  · cases actual <;> simp [WaitRunner.checkContains, specContains]
  · cases actual
    case dict kvs =>
      simp only [AssertRunner.compareContains]
      induction kvs with
      | nil => rfl
      | cons kv rest ih =>
        simp only [List.any_cons, List.map_cons]
        rw [ih]
    all_goals simp [AssertRunner.compareContains, specContains]

/-- C4 counterexample: a two-line artifact whose second line is a
truncated partial record ("re" is a torn prefix of "rec").
`read_jsonl` raises the decode error instead of returning the valid
prefix, while the replay engine's scan does skip the partial line. -/
theorem read_jsonl_partial_tail_counterexample :
    Jsonl.read_jsonl (fun s => if s = "rec" then some 1 else Option.none)
        ["rec", "re"] = .error "JSONDecodeError: re" ∧
    Jsonl.load_instance (fun s => if s = "rec" then some 1 else Option.none)
        (fun _ => true) ["rec", "re"] = some 1 := by
  exact ⟨rfl, rfl⟩

/-- C4 (amended): readers differ.  For any artifact whose lines are a
valid prefix (each line blank or parseable) followed by one malformed
line: the prefix itself reads fine, `read_jsonl` raises the JSON
decode error on the malformed trailing line (it skips only blank
lines), and the replay engine's `load_instance` silently skips it,
behaving exactly as on the valid prefix. -/
theorem jsonl_reader_tail_amended {J : Type} (parse : String → Option J)
    (isTarget : J → Bool) (good : List String) (bad : String)
    (hbad : Jsonl.pyStripStr bad ≠ "")
    (hfail : parse (Jsonl.pyStripStr bad) = Option.none)
    (hgood : ∀ l ∈ good, Jsonl.pyStripStr l = "" ∨
      (parse (Jsonl.pyStripStr l)).isSome = true) :
    (Jsonl.read_jsonl parse good).isOk = true ∧
    Jsonl.read_jsonl parse (good ++ [bad]) =
      .error ("JSONDecodeError: " ++ Jsonl.pyStripStr bad) ∧
    Jsonl.load_instance parse isTarget (good ++ [bad]) =
      Jsonl.load_instance parse isTarget good := by
  induction good with
  | nil =>
    refine ⟨rfl, ?_, ?_⟩
    · simp [Jsonl.read_jsonl, hbad, hfail]
    · simp [Jsonl.load_instance, hbad, hfail]
  | cons l rest ih =>
    obtain ⟨ih1, ih2, ih3⟩ := ih (fun x hx => hgood x (by simp [hx]))
    by_cases hbl : Jsonl.pyStripStr l = ""
    · have hread : ∀ ls, Jsonl.read_jsonl parse (l :: ls) =
          Jsonl.read_jsonl parse ls := by
        intro ls
        simp [Jsonl.read_jsonl, hbl]
      have hload : ∀ ls, Jsonl.load_instance parse isTarget (l :: ls) =
          Jsonl.load_instance parse isTarget ls := by
        intro ls
        simp [Jsonl.load_instance, hbl]
      exact ⟨by rw [hread]; exact ih1,
        by rw [List.cons_append, hread]; exact ih2,
        by rw [List.cons_append, hload, hload]; exact ih3⟩
    · have hsome : (parse (Jsonl.pyStripStr l)).isSome = true := by
        rcases hgood l (by simp) with h | h
        · exact absurd h hbl
        · exact h
      obtain ⟨j, hj⟩ := Option.isSome_iff_exists.mp hsome
      have hread : ∀ ls, Jsonl.read_jsonl parse (l :: ls) =
          (Jsonl.read_jsonl parse ls).map (j :: ·) := by
        intro ls
        simp [Jsonl.read_jsonl, hbl, hj]
      have hload : ∀ ls, Jsonl.load_instance parse isTarget (l :: ls) =
          if isTarget j then some j
          else Jsonl.load_instance parse isTarget ls := by
        intro ls
        simp [Jsonl.load_instance, hbl, hj]
      refine ⟨?_, ?_, ?_⟩
      · rw [hread]
        cases hrest : Jsonl.read_jsonl parse rest with
        | ok js => rfl
        | error e =>
          rw [hrest] at ih1
          simp [Except.isOk, Except.toBool] at ih1
      · rw [List.cons_append, hread, ih2]
        rfl
      · rw [List.cons_append, hload, hload, ih3]

/-- Witness for `jsonl_reader_tail_amended`: the concrete two-line file
("rec" then the torn line "re"). -/
theorem jsonl_reader_tail_amended_witness :
    (Jsonl.read_jsonl (fun s => if s = "rec" then some 1 else Option.none)
        ["rec"]).isOk = true ∧
    Jsonl.read_jsonl (fun s => if s = "rec" then some 1 else Option.none)
        (["rec"] ++ ["re"]) =
      .error ("JSONDecodeError: " ++ Jsonl.pyStripStr "re") ∧
    Jsonl.load_instance (fun s => if s = "rec" then some 1 else Option.none)
        (fun _ => true) (["rec"] ++ ["re"]) =
      Jsonl.load_instance (fun s => if s = "rec" then some 1 else Option.none)
        (fun _ => true) ["rec"] :=
  jsonl_reader_tail_amended (fun s => if s = "rec" then some 1 else Option.none)
    (fun _ => true) ["rec"] "re" (by decide) (by decide) (by decide)

/-- Helper: if the turbulence attempt loop succeeds, the recorded
attempts are the `remaining` attempt records from index `attempt` in
order, and the carried last result is the final attempt's outcome. -/
theorem turb_applyLoop_ok (core : Turb.RngCore) (fuel : Nat)
    (policy : Turb.TurbulencePolicy) (an sn iid : String) (bs : Int)
    (ctx : Http.Ctx) (execRes : Nat → Http.Observation × Http.Ctx)
    (timesOut : Nat → Bool) :
    ∀ (remaining attempt : Nat) (info : Http.TurbInfo)
      (last : Option (Http.Observation × Http.Ctx))
      (out : Http.TurbInfo × Option (Http.Observation × Http.Ctx)),
      Turb.applyLoop core fuel policy an sn iid bs ctx execRes timesOut
          attempt remaining (info, last) = .ok out →
      out.1.attempts = info.attempts ++
        ((List.range' attempt remaining).map
          (Turb.attemptEntry core fuel policy an sn iid bs ctx execRes timesOut)) ∧
      out.2 = (if remaining = 0 then last
        else some (Turb.attemptOutcome policy an ctx execRes timesOut
          (attempt + remaining - 1))) := by
  intro remaining
  induction remaining with
  | zero =>
    intro attempt info last out h
    simp only [Turb.applyLoop] at h
    cases h
    simp
  | succ r ih =>
    intro attempt info last out h
    simp only [Turb.applyLoop, Turb.applyAttempt, bind, Except.bind] at h
    cases hpick : Turb.pickLatency core fuel bs iid an sn attempt policy with
    | error e => rw [hpick] at h; simp at h
    | ok inj =>
      rw [hpick] at h
      obtain ⟨h1, h2⟩ := ih _ _ _ _ h
      constructor
      · cases inj <;>
          simp [h1, List.range'_succ _ _ 1, Turb.attemptEntry, hpick,
            Except.toOption]
      · rw [h2]
        rcases Nat.eq_zero_or_pos r with hr | hr
        · subst hr
          simp
        · have hne : ¬ (r = 0) := by omega
          have harith : attempt + 1 + r - 1 = attempt + (r + 1) - 1 := by omega
          simp only [hne, if_false, Nat.succ_ne_zero, if_neg, harith]

/-- C6: for a resolved policy with `retry_count = k`, a successful
`TurbulenceEngine.apply` records exactly `k + 1` turbulence attempts,
they are exactly the per-attempt records of executions `0 .. k` in
attempt order (so the wrapped execution is invoked exactly `k + 1`
times), and the returned observation and context are the last
(`k`-th) attempt's outcome — with only the `turbulence` field attached
— regardless of any attempt's success. -/
theorem turbulence_retry_storm (core : Turb.RngCore) (fuel : Nat)
    (policy : Turb.TurbulencePolicy) (an sn iid : String) (bs : Int)
    (ctx : Http.Ctx) (execRes : Nat → Http.Observation × Http.Ctx)
    (timesOut : Nat → Bool) (obs : Http.Observation) (c : Http.Ctx)
    (h : Turb.applyT core fuel policy an sn iid bs ctx execRes timesOut =
      .ok (obs, c)) :
    obs.turbulence.map (fun info => info.attempts.length) =
      some (1 + policy.retryCount.getD 0) ∧
    obs.turbulence.map (fun info => info.attempts) =
      some ((List.range (1 + policy.retryCount.getD 0)).map
        (Turb.attemptEntry core fuel policy an sn iid bs ctx execRes timesOut)) ∧
    obs = { (Turb.attemptOutcome policy an ctx execRes timesOut
              (policy.retryCount.getD 0)).1 with turbulence := obs.turbulence } ∧
    c = (Turb.attemptOutcome policy an ctx execRes timesOut
          (policy.retryCount.getD 0)).2 := by
  simp only [Turb.applyT, bind, Except.bind] at h
  cases hloop : Turb.applyLoop core fuel policy an sn iid bs ctx execRes
      timesOut 0 (1 + policy.retryCount.getD 0)
      ({ service := sn, action := an, retryCount := policy.retryCount.getD 0,
         timeoutAfterMs := policy.timeoutAfterMs, latencyMs := Option.none,
         attempts := [] }, Option.none) with
  | error e => rw [hloop] at h; simp at h
  | ok out =>
    rw [hloop] at h
    obtain ⟨hatt, hlast⟩ := turb_applyLoop_ok core fuel policy an sn iid bs ctx
      execRes timesOut _ _ _ _ _ hloop
    have hk : ¬ (1 + policy.retryCount.getD 0 = 0) := by omega
    rw [if_neg hk] at hlast
    obtain ⟨info2, last2⟩ := out
    simp only at hatt hlast
    subst hlast
    simp only [] at h
    have hidx : 0 + (1 + policy.retryCount.getD 0) - 1 = policy.retryCount.getD 0 := by
      omega
    rw [hidx] at h
    cases h
    refine ⟨?_, ?_, ?_, rfl⟩
    · simp [hatt, List.range_eq_range']
    · simp [hatt, List.range_eq_range']
    · rfl

/-- Witness for `turbulence_retry_storm`: a latency-free policy with
`retry_count = 2` around an always-500 execution runs 3 attempts and
returns the failing observation. -/
theorem turbulence_retry_storm_witness :
    (Turb.applyT (fun _ _ => 0) 0
        { latencyMs := Option.none, timeoutAfterMs := Option.none,
          retryCount := some 2 } "a" "s" "i" 0 []
        (fun _ => ({ ok := false, statusCode := some 500, latencyMs := 1,
                     headers := [], body := Option.none,
                     errors := ["HTTP 500: err"], actionName := "a",
                     service := Option.none, turbulence := Option.none,
                     attempts := [] }, []))
        (fun _ => false)).map
      (fun r => (r.1.turbulence.map (fun info => info.attempts.length), r.2)) =
      .ok (some 3, []) := by
  cases hrun : Turb.applyT (fun _ _ => 0) 0
      { latencyMs := Option.none, timeoutAfterMs := Option.none,
        retryCount := some 2 } "a" "s" "i" 0 []
      (fun _ => ({ ok := false, statusCode := some 500, latencyMs := 1,
                   headers := [], body := Option.none,
                   errors := ["HTTP 500: err"], actionName := "a",
                   service := Option.none, turbulence := Option.none,
                   attempts := [] }, []))
      (fun _ => false) with
  | error e => exact absurd hrun (by simp [Turb.applyT, Turb.applyLoop,
      Turb.applyAttempt, Turb.pickLatency, bind, Except.bind, pure, Except.pure])
  | ok r =>
    obtain ⟨h1, _, _, h4⟩ := turbulence_retry_storm _ _ _ _ _ _ _ _ _ _ r.1 r.2
      (by rw [hrun])
    simp only [Except.map, hrun]
    rw [h1, h4]
    rfl

/-- Helper: from any loop state with the condition not met, not timed
out, and no final recorded attempt marked met, a completed polling
loop satisfies the claimed observation invariants. -/
theorem waitLoop_invariant (find : Http.FindFn) (expect : WaitRunner.Expectation)
    (timeoutS intervalS : ℚ) (env : Nat → WaitRunner.WaitEnv)
    (actionName : String) (totalLatencyMs : ℚ) :
    ∀ (fuel : Nat) (st : WaitRunner.WaitState),
      st.conditionMet = false → st.timedOut = false →
      ((st.attempts.getLast?.map (fun a => a.conditionMet)).getD false) = false →
      ∀ st2, WaitRunner.waitLoop find expect timeoutS intervalS env fuel st = some st2 →
        WaitRunner.waitInvariant
          (WaitRunner.finalObs actionName totalLatencyMs st2) = true := by
  intro fuel
  induction fuel with
  | zero => intro st _ _ _ st2 h; simp [WaitRunner.waitLoop] at h
  | succ f ih =>
    intro st hcond htime hlast st2 h
    simp only [WaitRunner.waitLoop] at h
    split at h
    case isTrue htop =>
      cases h
      simp [WaitRunner.waitInvariant, WaitRunner.finalObs, hcond, htime, hlast]
    case isFalse htop =>
      cases hpoll : (env st.attemptNumber).poll with
      | failure msg =>
        simp only [hpoll, hcond] at h
        simp only [Bool.false_eq_true, if_false] at h
        split at h
        case isTrue hs =>
          cases h
          simp [WaitRunner.waitInvariant, WaitRunner.finalObs, htime, hlast,
            hcond, List.getLast?_concat]
        case isFalse hs =>
          refine ih _ ?_ ?_ ?_ _ h
          · rfl
          · exact htime
          · simp [List.getLast?_concat]
      | success stat body =>
        simp only [hpoll] at h
        split at h
        case isTrue hchk =>
          cases h
          simp [WaitRunner.waitInvariant, WaitRunner.finalObs, htime,
            List.getLast?_concat, hchk]
        case isFalse hchk =>
          have hchkf : WaitRunner.checkCondition find expect body (some stat) = false := by
            cases hc : WaitRunner.checkCondition find expect body (some stat)
            · rfl
            · exact absurd hc hchk
          split at h
          case isTrue hs =>
            cases h
            simp [WaitRunner.waitInvariant, WaitRunner.finalObs, htime,
              List.getLast?_concat, hchkf]
          case isFalse hs =>
            refine ih _ ?_ ?_ ?_ _ h
            · exact hchkf
            · exact htime
            · simp [List.getLast?_concat, hchkf]


/-- C10: every `WaitObservation` the wait runner produces satisfies:
`ok` iff the final recorded poll attempt has `condition_met` true;
never both `ok` and `timed_out`; `total_attempts` equals the length of
the attempts list; and a timed-out observation has a non-empty error
list. -/
theorem wait_observation_invariants (find : Http.FindFn)
    (expect : WaitRunner.Expectation) (actionName : String)
    (timeoutS intervalS totalLatencyMs : ℚ) (env : Nat → WaitRunner.WaitEnv)
    (fuel : Nat) :
    (WaitRunner.executeWait find expect actionName timeoutS intervalS
      totalLatencyMs env fuel).all WaitRunner.waitInvariant = true := by
  unfold WaitRunner.executeWait
  cases hlp : WaitRunner.waitLoop find expect timeoutS intervalS env fuel
      WaitRunner.initWaitState with
  | none => rfl
  | some st2 =>
    simp only [Option.map, Option.all]
    refine waitLoop_invariant find expect timeoutS intervalS env actionName
      totalLatencyMs fuel _ ?_ ?_ ?_ st2 hlp
    · rfl
    · rfl
    · rfl

/-- Hex digit round-trip, for the digest-prefix parse. -/
theorem hexVal_hexDigitChar (d : Nat) (h : d < 16) :
    Sha256.hexVal (Sha256.hexDigitChar d) = d := by
  interval_cases d <;> rfl

theorem randbelowLoop_lt (draws : Nat → Nat) (n : Nat) :
    ∀ (fuel i r : Nat), PyRandom.randbelowLoop draws n fuel i = some r → r < n := by
  intro fuel
  induction fuel with
  | zero => intro i r h; simp [PyRandom.randbelowLoop] at h
  | succ f ih =>
    intro i r h
    rw [PyRandom.randbelowLoop] at h
    split at h
    · cases h; assumption
    · exact ih _ _ h

theorem randint_range (draws : Nat → Nat) (a b : Int) (fuel : Nat) (v : Int)
    (h : PyRandom.randint draws a b fuel = .ok v) : a ≤ v ∧ v ≤ b := by
  rw [PyRandom.randint] at h
  split at h
  · simp at h
  · rename_i hw
    split at h
    · rename_i r hr
      cases h
      have hlt := randbelowLoop_lt _ _ _ _ _ hr
      have hw2 : (0 : Int) < b + 1 - a := by omega
      have : ((b + 1 - a).toNat : Int) = b + 1 - a := Int.toNat_of_nonneg (by omega)
      omega
    · simp at h

theorem pick_latency_in_range (core : Turb.RngCore) (fuel : Nat) (bs : Int)
    (iid an sn : String) (att : Nat) (policy : Turb.TurbulencePolicy) :
    Turb.latencyInRange (Turb.pickLatency core fuel bs iid an sn att policy)
      policy = true := by
  rw [Turb.pickLatency]
  cases hlc : policy.latencyMs with
  | none => simp [Turb.latencyInRange]
  | some lc =>
    cases hint : PyRandom.randint
        (core (Turb.deriveSeed bs iid sn an att)) lc.min lc.max fuel with
    | error e => simp [Turb.latencyInRange, Except.map, hint]
    | ok v =>
      have hrng := randint_range _ _ _ _ _ hint
      simp [Turb.latencyInRange, Except.map, hlc, hint, hrng.1, hrng.2]

theorem sha256Words_length (m : List Nat) : (Sha256.sha256Words m).length = 8 := by
  have aux : ∀ (blocks : List (List Nat)) (acc : List Nat), acc.length = 8 →
      (List.foldl Sha256.compress acc blocks).length = 8 := by
    intro blocks
    induction blocks with
    | nil => intro acc h; simpa using h
    | cons b bs ih =>
      intro acc h
      simp only [List.foldl_cons]
      exact ih _ (by simp [Sha256.compress])
  exact aux _ _ rfl

theorem parse_first8 (b0 b1 b2 b3 : Nat) (rest : List Nat)
    (h0 : b0 < 256) (h1 : b1 < 256) (h2 : b2 < 256) (h3 : b3 < 256) :
    Sha256.parseHexChars
        ((((b0 :: b1 :: b2 :: b3 :: rest).map Sha256.byteHexChars).flatten).take 8) =
      ((b0 * 256 + b1) * 256 + b2) * 256 + b3 := by
  have e0 := hexVal_hexDigitChar (b0 / 16) (by omega)
  have e1 := hexVal_hexDigitChar (b0 % 16) (by omega)
  have e2 := hexVal_hexDigitChar (b1 / 16) (by omega)
  have e3 := hexVal_hexDigitChar (b1 % 16) (by omega)
  have e4 := hexVal_hexDigitChar (b2 / 16) (by omega)
  have e5 := hexVal_hexDigitChar (b2 % 16) (by omega)
  have e6 := hexVal_hexDigitChar (b3 / 16) (by omega)
  have e7 := hexVal_hexDigitChar (b3 % 16) (by omega)
  simp [Sha256.parseHexChars, Sha256.byteHexChars, List.take_succ_cons,
    List.foldl, e0, e1, e2, e3, e4, e5, e6, e7]
  omega

theorem deriveSeed_eq_spec_first32 (m : List Nat) :
    Sha256.parseHexChars ((Sha256.hexDigestChars m).take 8) =
      Turb.specFirst32Bits (Sha256.sha256Bytes m) := by
  obtain ⟨w0, ws, hws⟩ : ∃ w0 ws, Sha256.sha256Words m = w0 :: ws := by
    cases hws : Sha256.sha256Words m with
    | nil =>
      have := sha256Words_length m
      rw [hws] at this
      simp at this
    | cons a l => exact ⟨a, l, rfl⟩
  have hb : Sha256.sha256Bytes m =
      (w0 >>> 24) % 256 :: (w0 >>> 16) % 256 :: (w0 >>> 8) % 256 :: w0 % 256 ::
        ((ws.map Sha256.wordBytesBE).flatten) := by
    simp [Sha256.sha256Bytes, hws, Sha256.wordBytesBE]
  rw [Sha256.hexDigestChars, hb]
  rw [parse_first8 _ _ _ _ _ (Nat.mod_lt _ (by norm_num)) (Nat.mod_lt _ (by norm_num))
    (Nat.mod_lt _ (by norm_num)) (Nat.mod_lt _ (by norm_num))]
  simp [Turb.specFirst32Bits, List.take_succ_cons, List.foldl]

/-- C7: for a fixed tuple `(base_seed, instance_id, service, action,
attempt)` the injected latency is a pure function of the derived seed
(two samplings with equal payloads agree, for every MT19937 core);
every produced value lies in the policy's `[min, max]`; and the
derived seed is the first 32 bits (leading four bytes, big-endian) of
the SHA-256 digest of the UTF-8 encoding of the colon-joined tuple
components. -/
theorem turbulence_latency_seed (core : Turb.RngCore) (fuel : Nat)
    (bs bs2 : Int) (iid iid2 sn sn2 an an2 : String) (att att2 : Nat)
    (policy : Turb.TurbulencePolicy)
    (hsame : Turb.payload bs iid sn an att = Turb.payload bs2 iid2 sn2 an2 att2) :
    Turb.pickLatency core fuel bs iid an sn att policy =
      Turb.pickLatency core fuel bs2 iid2 an2 sn2 att2 policy ∧
    Turb.latencyInRange (Turb.pickLatency core fuel bs iid an sn att policy)
      policy = true ∧
    Turb.deriveSeed bs iid sn an att =
      Turb.specFirst32Bits (Sha256.sha256Bytes (Turb.payloadBytes bs iid sn an att)) := by
  refine ⟨?_, pick_latency_in_range core fuel bs iid an sn att policy, ?_⟩
  · simp [Turb.pickLatency, Turb.deriveSeed, Turb.payloadBytes, hsame]
  · rw [Turb.deriveSeed]
    exact deriveSeed_eq_spec_first32 _

/-- Witness for `turbulence_latency_seed` at a concrete tuple and a
latency-free policy. -/
theorem turbulence_latency_seed_witness :
    Turb.pickLatency (fun _ _ => 0) 1 7 "inst" "act" "svc" 0
        { latencyMs := Option.none, timeoutAfterMs := Option.none,
          retryCount := Option.none } =
      Turb.pickLatency (fun _ _ => 0) 1 7 "inst" "act" "svc" 0
        { latencyMs := Option.none, timeoutAfterMs := Option.none,
          retryCount := Option.none } ∧
    Turb.latencyInRange
      (Turb.pickLatency (fun _ _ => 0) 1 7 "inst" "act" "svc" 0
        { latencyMs := Option.none, timeoutAfterMs := Option.none,
          retryCount := Option.none })
      { latencyMs := Option.none, timeoutAfterMs := Option.none,
        retryCount := Option.none } = true ∧
    Turb.deriveSeed 7 "inst" "svc" "act" 0 =
      Turb.specFirst32Bits (Sha256.sha256Bytes (Turb.payloadBytes 7 "inst" "svc" "act" 0)) :=
  turbulence_latency_seed (fun _ _ => 0) 1 7 7 "inst" "inst" "svc" "svc"
    "act" "act" 0 0
    { latencyMs := Option.none, timeoutAfterMs := Option.none,
      retryCount := Option.none } rfl


/- C5: template rendering as identity on delimiter-free values. -/

theorem charsInfix_iff (n h : List Char) : charsInfix n h = true ↔ n <:+: h := by
  simp only [charsInfix, List.any_eq_true, List.mem_tails]
  constructor
  · rintro ⟨t, ht, hp⟩
    exact List.infix_iff_prefix_suffix.mpr ⟨t, List.isPrefixOf_iff_prefix.mp hp, ht⟩
  · intro hinf
    obtain ⟨t, hp, hs⟩ := List.infix_iff_prefix_suffix.mp hinf
    exact ⟨t, hs, List.isPrefixOf_iff_prefix.mpr hp⟩

theorem stripChars_isInfixList (l : List Char) : Template.stripChars l <:+: l := by
  unfold Template.stripChars
  have h1 : (l.dropWhile Template.isSpaceChar).reverse.dropWhile
      Template.isSpaceChar <:+ (l.dropWhile Template.isSpaceChar).reverse := by
    exact List.dropWhile_suffix _
  have h2 : ((l.dropWhile Template.isSpaceChar).reverse.dropWhile
      Template.isSpaceChar).reverse <+: l.dropWhile Template.isSpaceChar := by
    rw [← List.reverse_reverse ((l.dropWhile Template.isSpaceChar).reverse.dropWhile
      Template.isSpaceChar)] at h1
    exact List.reverse_suffix.mp h1
  have h3 : l.dropWhile Template.isSpaceChar <:+ l := List.dropWhile_suffix _
  exact h2.isInfix.trans h3.isInfix

theorem singleVarMatch_none (s : String)
    (h : charsInfix ['\x7b', '\x7b'] s.toList = false) :
    Template.singleVarMatch s = Option.none := by
  rw [Template.singleVarMatch]
  split
  · rfl
  · split
    · rfl
    · rename_i hlen hbr
      exfalso
      push_neg at hbr
      have hpre : ['\x7b', '\x7b'] <+:
          Template.stripChars s.toList := by
        have := hbr.1
        rw [← this]
        exact List.take_prefix _ _
      have hinf : (['\x7b', '\x7b'] : List Char) <:+: s.toList :=
        hpre.isInfix.trans (stripChars_isInfixList s.toList)
      rw [(charsInfix_iff _ _).mpr hinf] at h
      exact Bool.true_eq_false.mp h

theorem charsInfix_cons (n : List Char) (c : Char) (t : List Char)
    (h : charsInfix n (c :: t) = false) : charsInfix n t = false := by
  cases hc : charsInfix n t
  · rfl
  · exfalso
    have h1 := (charsInfix_iff n t).mp hc
    have h2 : n <:+: c :: t := h1.trans (List.suffix_cons c t).isInfix
    rw [(charsInfix_iff _ _).mpr h2] at h
    exact Bool.true_eq_false.mp h

theorem jinjaScan_id (ctx : Template.Ctx) :
    ∀ (n : Nat) (l : List Char), l.length ≤ n →
      charsInfix ['\x7b', '\x7b'] l = false →
      charsInfix ['\x7b', '%'] l = false →
      charsInfix ['\x7b', '#'] l = false →
      Template.jinjaScan ctx l = .ok l := by
  intro n
  induction n with
  | zero =>
    intro l hl _ _ _
    have hnil : l = [] := by
      cases l
      · rfl
      · simp at hl
    subst hnil
    simp [Template.jinjaScan]
  | succ n ih =>
    intro l hl h1 h2 h3
    rcases l with _ | ⟨c, rest⟩
    · simp [Template.jinjaScan]
    · have hlen : rest.length ≤ n := by
        simp only [List.length_cons] at hl
        omega
      have hrec : Template.jinjaScan ctx rest = .ok rest :=
        ih rest hlen (charsInfix_cons _ _ _ h1) (charsInfix_cons _ _ _ h2)
          (charsInfix_cons _ _ _ h3)
      by_cases hc : c = '\x7b'
      · subst hc
        rcases rest with _ | ⟨c2, rest2⟩
        · simp [Template.jinjaScan, Except.map]
        · have hc2a : c2 ≠ '\x7b' := by
            intro hh
            subst hh
            have hin : (['\x7b', '\x7b'] : List Char) <:+:
                '\x7b' :: '\x7b' :: rest2 := ⟨[], rest2, rfl⟩
            rw [(charsInfix_iff _ _).mpr hin] at h1
            exact absurd h1 (by simp)
          have hc2b : c2 ≠ '%' := by
            intro hh
            subst hh
            have hin : (['\x7b', '%'] : List Char) <:+:
                '\x7b' :: '%' :: rest2 := ⟨[], rest2, rfl⟩
            rw [(charsInfix_iff _ _).mpr hin] at h2
            exact absurd h2 (by simp)
          have hc2c : c2 ≠ '#' := by
            intro hh
            subst hh
            have hin : (['\x7b', '#'] : List Char) <:+:
                '\x7b' :: '#' :: rest2 := ⟨[], rest2, rfl⟩
            rw [(charsInfix_iff _ _).mpr hin] at h3
            exact absurd h3 (by simp)
          simp [Template.jinjaScan, hc2a, hc2b, hc2c, hrec, Except.map]
      · simp [Template.jinjaScan, hc, hrec, Except.map]

theorem jinjaFreeStr_spec (s : String) (h : Template.jinjaFreeStr s = true) :
    charsInfix [Char.ofNat 123, Char.ofNat 123] s.data = false ∧
    charsInfix [Char.ofNat 123, Char.ofNat 37] s.data = false ∧
    charsInfix [Char.ofNat 123, Char.ofNat 35] s.data = false ∧
    Char.ofNat 13 ∉ s.data ∧
    s.data.getLast? ≠ some (Char.ofNat 10) := by
  simp only [Template.jinjaFreeStr, Bool.and_eq_true, Bool.not_eq_true'] at h
  obtain ⟨⟨⟨⟨h1, h2⟩, h3⟩, h4⟩, h5⟩ := h
  refine ⟨by simpa [strIn] using h1, by simpa [strIn] using h2,
    by simpa [strIn] using h3, ?_, ?_⟩
  · intro hm
    have hany : s.toList.any (· == Char.ofNat 13) = true :=
      List.any_eq_true.mpr ⟨_, hm, by rfl⟩
    rw [h4] at hany
    cases hany
  · intro he
    have he2 : s.toList.getLast? = some (Char.ofNat 10) := he
    have hq : (s.toList.getLast? == some (Char.ofNat 10)) = true := by
      rw [he2]
      rfl
    rw [h5] at hq
    cases hq

theorem normNL_id (l : List Char) (h : Char.ofNat 13 ∉ l) :
    Template.normNL l = l := by
  induction l with
  | nil => rfl
  | cons c rest ih =>
    have hc : c ≠ Char.ofNat 13 := fun e => h (e ▸ List.mem_cons_self c rest)
    have hr : Char.ofNat 13 ∉ rest := fun m => h (List.mem_cons_of_mem c m)
    cases rest with
    | nil => simp [Template.normNL, hc]
    | cons d rest2 =>
      simp [Template.normNL, hc]
      exact ih hr

theorem jinjaSource_id (l : List Char) (h1 : Char.ofNat 13 ∉ l)
    (h2 : l.getLast? ≠ some (Char.ofNat 10)) :
    Template.jinjaSource l = l := by
  unfold Template.jinjaSource Template.dropTrailingNL
  rw [normNL_id l h1]
  simp [h2]

theorem renderString_id (s : String) (ctx : Template.Ctx)
    (h : Template.jinjaFreeStr s = true) :
    Template.renderString s ctx = .ok (.str s) := by
  obtain ⟨h1, h2, h3, h4, h5⟩ := jinjaFreeStr_spec s h
  unfold Template.renderString
  rw [singleVarMatch_none s h1, jinjaSource_id s.toList h4 h5,
    jinjaScan_id ctx s.toList.length s.toList le_rfl h1 h2 h3]
  rfl

theorem pyval_strong_induction (P : PyVal → Prop)
    (hnone : P .none) (hbool : ∀ b, P (.bool b)) (hint : ∀ n, P (.int n))
    (hstr : ∀ s, P (.str s))
    (hlist : ∀ xs, (∀ x ∈ xs, P x) → P (.list xs))
    (htuple : ∀ xs, (∀ x ∈ xs, P x) → P (.tuple xs))
    (hdict : ∀ kvs, (∀ kv ∈ kvs, P kv.2) → P (.dict kvs)) :
    ∀ v, P v := by
  have aux : ∀ (n : Nat) (v : PyVal), sizeOf v ≤ n → P v := by
    intro n
    induction n with
    | zero =>
      intro v hv
      cases v <;> simp at hv
    | succ n ih =>
      intro v hv
      cases v with
      | none => exact hnone
      | bool b => exact hbool b
      | int m => exact hint m
      | str s => exact hstr s
      | list xs =>
        refine hlist xs (fun x hx => ih x ?_)
        have h1 : sizeOf x < sizeOf xs := List.sizeOf_lt_of_mem hx
        have h2 : sizeOf (PyVal.list xs) = 1 + sizeOf xs := by simp
        omega
      | tuple xs =>
        refine htuple xs (fun x hx => ih x ?_)
        have h1 : sizeOf x < sizeOf xs := List.sizeOf_lt_of_mem hx
        have h2 : sizeOf (PyVal.tuple xs) = 1 + sizeOf xs := by simp
        omega
      | dict kvs =>
        refine hdict kvs (fun kv hkv => ih kv.2 ?_)
        have h1 : sizeOf kv < sizeOf kvs := List.sizeOf_lt_of_mem hkv
        have h2 : sizeOf kv.2 < sizeOf kv := by
          obtain ⟨a, b⟩ := kv
          simp
        have h3 : sizeOf (PyVal.dict kvs) = 1 + sizeOf kvs := by simp
        omega
  intro v
  exact aux (sizeOf v) v le_rfl

theorem renderList_id (ctx : Template.Ctx) (xs : List PyVal)
    (h : ∀ x ∈ xs, Template.renderValue x ctx = .ok x) :
    Template.renderList xs ctx = .ok xs := by
  induction xs with
  | nil => simp [Template.renderList]
  | cons x rest ih =>
    have hx := h x (by simp)
    have hrest := ih (fun y hy => h y (by simp [hy]))
    simp [Template.renderList, hx, hrest]
    try rfl

theorem renderDict_id (ctx : Template.Ctx) (kvs : List (String × PyVal))
    (h : ∀ kv ∈ kvs, Template.renderValue kv.2 ctx = .ok kv.2) :
    Template.renderDict kvs ctx = .ok kvs := by
  induction kvs with
  | nil => simp [Template.renderDict]
  | cons kv rest ih =>
    have hx := h kv (by simp)
    have hrest := ih (fun y hy => h y (by simp [hy]))
    obtain ⟨k, v⟩ := kv
    simp [Template.renderDict, hx, hrest]
    try rfl

theorem jinjaFreeList_mem (xs : List PyVal)
    (h : Template.jinjaFreeList xs = true) :
    ∀ x ∈ xs, Template.jinjaFree x = true := by
  induction xs with
  | nil => simp
  | cons y rest ih =>
    simp [Template.jinjaFreeList] at h
    intro x hx
    rcases List.mem_cons.mp hx with hx | hx
    · exact hx ▸ h.1
    · exact ih h.2 x hx

theorem jinjaFreeDict_mem (kvs : List (String × PyVal))
    (h : Template.jinjaFreeDict kvs = true) :
    ∀ kv ∈ kvs, Template.jinjaFree kv.2 = true := by
  induction kvs with
  | nil => simp
  | cons y rest ih =>
    obtain ⟨k, v⟩ := y
    simp [Template.jinjaFreeDict] at h
    intro kv hkv
    rcases List.mem_cons.mp hkv with hkv | hkv
    · exact hkv ▸ h.1
    · exact ih h.2 kv hkv

theorem hasTemplatesList_false (xs : List PyVal)
    (h : ∀ x ∈ xs, Template.hasTemplates x = false) :
    Template.hasTemplatesList xs = false := by
  induction xs with
  | nil => simp [Template.hasTemplatesList]
  | cons x rest ih =>
    have hx := h x (by simp)
    have hrest := ih (fun y hy => h y (by simp [hy]))
    simp [Template.hasTemplatesList, hx, hrest]

theorem hasTemplatesDict_false (kvs : List (String × PyVal))
    (h : ∀ kv ∈ kvs, Template.hasTemplates kv.2 = false) :
    Template.hasTemplatesDict kvs = false := by
  induction kvs with
  | nil => simp [Template.hasTemplatesDict]
  | cons kv rest ih =>
    have hx := h kv (by simp)
    have hrest := ih (fun y hy => h y (by simp [hy]))
    obtain ⟨k, v⟩ := kv
    simp [Template.hasTemplatesDict, hrest]
    exact hx

/-- C5 (amended): rendering is the identity on every value whose
strings are free of all jinja2 opening delimiters; such values in
particular have no templates. -/
theorem template_render_identity (v : PyVal) (ctx : Template.Ctx)
    (h : Template.jinjaFree v = true) :
    Template.renderValue v ctx = .ok v ∧ Template.hasTemplates v = false := by
  induction v using pyval_strong_induction with
  | hnone => simp [Template.renderValue, Template.hasTemplates]
  | hbool b => simp [Template.renderValue, Template.hasTemplates]
  | hint n => simp [Template.renderValue, Template.hasTemplates]
  | hstr s =>
    simp only [Template.jinjaFree] at h
    have h1 := (jinjaFreeStr_spec s h).1
    constructor
    · simp [Template.renderValue, renderString_id s ctx h]
    · simp [Template.hasTemplates, strIn, h1]
  | hlist xs ih =>
    simp only [Template.jinjaFree] at h
    have hmem := jinjaFreeList_mem xs h
    have hall := fun x hx => ih x hx (hmem x hx)
    constructor
    · have hr := renderList_id ctx xs (fun x hx => (hall x hx).1)
      simp [Template.renderValue, hr, Except.map]
    · have ht := hasTemplatesList_false xs (fun x hx => (hall x hx).2)
      simp [Template.hasTemplates, ht]
  | htuple xs ih =>
    simp [Template.renderValue, Template.hasTemplates]
  | hdict kvs ih =>
    simp only [Template.jinjaFree] at h
    have hmem := jinjaFreeDict_mem kvs h
    have hall := fun kv hkv => ih kv hkv (hmem kv hkv)
    constructor
    · have hr := renderDict_id ctx kvs (fun kv hkv => (hall kv hkv).1)
      simp [Template.renderValue, hr, Except.map]
    · have ht := hasTemplatesDict_false kvs (fun kv hkv => (hall kv hkv).2)
      simp [Template.hasTemplates, ht]

/-- C5 counterexample: `has_templates` is false on the string
`a\x7b\x7bb` (no closing delimiter), yet rendering it is not the
identity — jinja2 raises a TemplateSyntaxError on the unclosed
variable block, so `render` raises instead of returning the value. -/
theorem template_identity_counterexample :
    (Template.hasTemplates (.str "a\x7b\x7bb") = false ∧
      Template.renderValue (.str "a\x7b\x7bb") [] =
        .error .jinjaSyntaxError) ∧
    (Template.hasTemplates (.str "abc\n") = false ∧
      Template.renderValue (.str "abc\n") [] = .ok (.str "abc")) := by
  have hht : (strIn "\x7b\x7b" "a\x7b\x7bb" && strIn "\x7d\x7d" "a\x7b\x7bb") = false := rfl
  have hsv : Template.singleVarMatch "a\x7b\x7bb" = Option.none := rfl
  have hsrc : Template.jinjaSource ['a', '\x7b', '\x7b', 'b'] =
      ['a', '\x7b', '\x7b', 'b'] := rfl
  have hht2 : (strIn "\x7b\x7b" "abc\n" && strIn "\x7d\x7d" "abc\n") = false := rfl
  have hsv2 : Template.singleVarMatch "abc\n" = Option.none := rfl
  have hsrc2 : Template.jinjaSource ['a', 'b', 'c', '\n'] = ['a', 'b', 'c'] := rfl
  have hscan : Template.jinjaScan [] (['a', '\x7b', '\x7b', 'b'] : List Char) =
      .error .syntaxError := by
    simp [Template.jinjaScan, Template.jinjaVar, Except.map]
  have hscan2 : Template.jinjaScan [] (['a', 'b', 'c'] : List Char) =
      .ok ['a', 'b', 'c'] := by
    simp [Template.jinjaScan, Except.map]
  refine ⟨⟨?_, ?_⟩, ?_, ?_⟩
  · simp [Template.hasTemplates, hht]
  · simp [Template.renderValue, Template.renderString, hsv, hsrc, hscan]
  · simp [Template.hasTemplates, hht2]
  · simp [Template.renderValue, Template.renderString, hsv2, hsrc2, hscan2]
    try rfl

theorem template_render_identity_witness :
    Template.jinjaFree (.dict [("a", .str "x")]) = true ∧
    (Template.renderValue (.dict [("a", .str "x")]) [] =
        .ok (.dict [("a", .str "x")]) ∧
      Template.hasTemplates (.dict [("a", .str "x")]) = false) := by
  have hfree : Template.jinjaFree (.dict [("a", .str "x")]) = true := by
    have h1 : Template.jinjaFreeStr "x" = true := rfl
    simp [Template.jinjaFree, Template.jinjaFreeDict, Template.jinjaFreeList, h1]
  exact ⟨hfree, template_render_identity _ [] hfree⟩

/- C8: sandbox validator helper lemmas. -/

theorem exceptBind_error2 {α β : Type} (m : String) (f : α → Except String β) :
    (Except.error m >>= f : Except String β) = Except.error m := rfl

theorem exceptBind_ok2 {α β : Type} (a : α) (f : α → Except String β) :
    (Except.ok a >>= f : Except String β) = f a := rfl

theorem exceptPure : (pure () : Except String Unit) = Except.ok () := rfl

theorem collectTargets_ok_or_err (gens : List Sandbox.Comp) :
    Sandbox.collectTargets gens = .ok (Sandbox.targetsOf gens) ∨
    ∃ m, Sandbox.collectTargets gens = .error m := by
  induction gens with
  | nil => left; rfl
  | cons c rest ih =>
    obtain ⟨t, iter, ifs⟩ := c
    cases t with
    | nameT s =>
      rcases ih with h | ⟨m, h⟩
      · left
        simp [Sandbox.collectTargets, Sandbox.Comp.target, h, Except.map,
          Sandbox.targetsOf]
      · right
        exact ⟨m, by simp [Sandbox.collectTargets, Sandbox.Comp.target, h, Except.map]⟩
    | otherT =>
      right
      exact ⟨Sandbox.compTargetErr, by simp [Sandbox.collectTargets, Sandbox.Comp.target]⟩

theorem validate_catches (n : Nat) :
    ∀ allowed : List String, (∀ f ∈ Sandbox.allowedFunctions, f ∈ allowed) →
    (∀ e : Sandbox.Expr, sizeOf e ≤ n → Sandbox.violation allowed e = true →
      Sandbox.validate allowed e ≠ .ok ()) ∧
    (∀ xs : List Sandbox.Expr, sizeOf xs ≤ n →
      Sandbox.violationList allowed xs = true →
      Sandbox.validateList allowed xs ≠ .ok ()) ∧
    (∀ o : Option Sandbox.Expr, sizeOf o ≤ n →
      Sandbox.violationOpt allowed o = true →
      Sandbox.validateOpt allowed o ≠ .ok ()) ∧
    (∀ gens : List Sandbox.Comp, sizeOf gens ≤ n →
      Sandbox.gensViolation allowed gens = true →
      Sandbox.validateGens allowed gens ≠ .ok ()) := by
  induction n with
  | zero =>
    intro allowed hfun
    refine ⟨fun e he => ?_, fun xs hxs => ?_, fun o ho => ?_, fun gens hg => ?_⟩
    · cases e <;> simp at he
    · cases xs <;> simp at hxs
    · cases o <;> simp at ho
    · cases gens <;> simp at hg
  | succ n ih =>
    intro allowed hfun
    refine ⟨?_, ?_, ?_, ?_⟩
    · intro e he hv
      cases e with
      | const v => simp [Sandbox.violation] at hv
      | name id =>
        simp [Sandbox.violation] at hv
        simp [Sandbox.validate, hv]
      | boolOp op vs =>
        simp at he
        simp [Sandbox.violation] at hv
        simp [Sandbox.validate]
        exact (ih allowed hfun).2.1 vs (by omega) hv
      | binOp l op r =>
        simp at he
        simp [Sandbox.violation] at hv
        simp [Sandbox.validate]
        cases hvl : Sandbox.validate allowed l with
        | error m => simp [hvl, exceptBind_error2]
        | ok u =>
          cases u
          have hnl : Sandbox.violation allowed l = false := by
            cases hq : Sandbox.violation allowed l
            · rfl
            · exact absurd hvl ((ih allowed hfun).1 l (by omega) hq)
          cases hop2 : Sandbox.binAllowed op with
          | false => simp [hvl, hop2, exceptBind_ok2, exceptBind_error2]
          | true =>
            simp [hvl, hop2, exceptBind_ok2, exceptPure]
            have hvr : Sandbox.violation allowed r = true := by
              rcases hv with (h1 | h1) | h1
              · rw [hop2] at h1; cases h1
              · rw [hnl] at h1; cases h1
              · exact h1
            exact (ih allowed hfun).1 r (by omega) hvr
      | unaryOp op e1 =>
        simp at he
        simp [Sandbox.violation] at hv
        simp [Sandbox.validate]
        cases hop2 : Sandbox.unAllowed op with
        | false => simp [hop2, exceptBind_error2]
        | true =>
          simp [hop2, exceptPure, exceptBind_ok2]
          have hve : Sandbox.violation allowed e1 = true := by
            rcases hv with h1 | h1
            · rw [hop2] at h1; cases h1
            · exact h1
          exact (ih allowed hfun).1 e1 (by omega) hve
      | compare l ops rs =>
        simp at he
        simp [Sandbox.violation] at hv
        simp [Sandbox.validate]
        cases hvl : Sandbox.validate allowed l with
        | error m => simp [hvl, exceptBind_error2]
        | ok u =>
          cases u
          have hnl : Sandbox.violation allowed l = false := by
            cases hq : Sandbox.violation allowed l
            · rfl
            · exact absurd hvl ((ih allowed hfun).1 l (by omega) hq)
          simp [hvl, exceptBind_ok2]
          have hvr : Sandbox.violationList allowed rs = true := by
            rcases hv with h1 | h1
            · rw [hnl] at h1; cases h1
            · exact h1
          exact (ih allowed hfun).2.1 rs (by omega) hvr
      | call f args kwargs =>
        cases f with
        | name id =>
          simp at he
          simp [Sandbox.violation] at hv
          simp [Sandbox.validate]
          by_cases hid : id ∈ Sandbox.allowedFunctions
          · have hida : id ∈ allowed := hfun id hid
            simp [hid, exceptBind_ok2]
            cases hva : Sandbox.validateList allowed args with
            | error m => simp [hva, exceptBind_error2]
            | ok u =>
              cases u
              have hnargs : Sandbox.violationList allowed args = false := by
                cases hq : Sandbox.violationList allowed args
                · rfl
                · exact absurd hva ((ih allowed hfun).2.1 args (by omega) hq)
              simp [hva, exceptBind_ok2]
              have hvk : Sandbox.violationList allowed kwargs = true := by
                rcases hv with (h1 | h1) | h1
                · exact absurd hida h1
                · rw [hnargs] at h1; cases h1
                · exact h1
              exact (ih allowed hfun).2.1 kwargs (by omega) hvk
          · simp [hid, exceptBind_error2]
        | attr v a =>
          simp at he
          simp [Sandbox.violation] at hv
          simp [Sandbox.validate]
          cases hab : Sandbox.attrBad a with
          | true => simp [hab, exceptBind_error2]
          | false =>
            simp [hab]
            cases hvv : Sandbox.validate allowed v with
            | error m => simp [hvv, exceptBind_error2]
            | ok u =>
              cases u
              have hnv : Sandbox.violation allowed v = false := by
                cases hq : Sandbox.violation allowed v
                · rfl
                · exact absurd hvv ((ih allowed hfun).1 v (by omega) hq)
              simp [hvv, exceptBind_ok2]
              cases hva : Sandbox.validateList allowed args with
              | error m => simp [hva, exceptBind_error2]
              | ok u =>
                cases u
                have hnargs : Sandbox.violationList allowed args = false := by
                  cases hq : Sandbox.violationList allowed args
                  · rfl
                  · exact absurd hva ((ih allowed hfun).2.1 args (by omega) hq)
                simp [hva, exceptBind_ok2]
                have hvk : Sandbox.violationList allowed kwargs = true := by
                  rcases hv with (h1 | h1) | h1
                  · rw [hab] at h1
                    rw [hnv] at h1
                    simp at h1
                  · rw [hnargs] at h1; cases h1
                  · exact h1
                exact (ih allowed hfun).2.1 kwargs (by omega) hvk
        | const v => simp [Sandbox.validate, exceptBind_error2]
        | boolOp op vs => simp [Sandbox.validate, exceptBind_error2]
        | binOp l op r => simp [Sandbox.validate, exceptBind_error2]
        | unaryOp op e1 => simp [Sandbox.validate, exceptBind_error2]
        | compare l ops rs => simp [Sandbox.validate, exceptBind_error2]
        | call f2 a2 k2 => simp [Sandbox.validate, exceptBind_error2]
        | listE xs => simp [Sandbox.validate, exceptBind_error2]
        | tupleE xs => simp [Sandbox.validate, exceptBind_error2]
        | setE xs => simp [Sandbox.validate, exceptBind_error2]
        | dictE ks vs => simp [Sandbox.validate, exceptBind_error2]
        | subscript v i => simp [Sandbox.validate, exceptBind_error2]
        | sliceE lo hi st => simp [Sandbox.validate, exceptBind_error2]
        | ifExp c t e2 => simp [Sandbox.validate, exceptBind_error2]
        | listComp elt gens => simp [Sandbox.validate, exceptBind_error2]
        | genExp elt gens => simp [Sandbox.validate, exceptBind_error2]
        | lambdaE b => simp [Sandbox.validate, exceptBind_error2]
        | namedExpr t2 v2 => simp [Sandbox.validate, exceptBind_error2]
        | setComp elt gens => simp [Sandbox.validate, exceptBind_error2]
        | dictComp k2 v2 gens => simp [Sandbox.validate, exceptBind_error2]
        | starred e1 => simp [Sandbox.validate, exceptBind_error2]
        | joinedStr ps => simp [Sandbox.validate, exceptBind_error2]
      | listE xs =>
        simp at he
        simp [Sandbox.violation] at hv
        simp [Sandbox.validate]
        exact (ih allowed hfun).2.1 xs (by omega) hv
      | tupleE xs =>
        simp at he
        simp [Sandbox.violation] at hv
        simp [Sandbox.validate]
        exact (ih allowed hfun).2.1 xs (by omega) hv
      | setE xs =>
        simp at he
        simp [Sandbox.violation] at hv
        simp [Sandbox.validate]
        exact (ih allowed hfun).2.1 xs (by omega) hv
      | dictE ks vs =>
        simp at he
        simp [Sandbox.violation] at hv
        simp [Sandbox.validate]
        cases hvk : Sandbox.validateList allowed ks with
        | error m => simp [hvk, exceptBind_error2]
        | ok u =>
          cases u
          have hnk : Sandbox.violationList allowed ks = false := by
            cases hq : Sandbox.violationList allowed ks
            · rfl
            · exact absurd hvk ((ih allowed hfun).2.1 ks (by omega) hq)
          simp [hvk, exceptBind_ok2]
          have hvv : Sandbox.violationList allowed vs = true := by
            rcases hv with h1 | h1
            · rw [hnk] at h1; cases h1
            · exact h1
          exact (ih allowed hfun).2.1 vs (by omega) hvv
      | subscript v i =>
        simp at he
        simp [Sandbox.violation] at hv
        simp [Sandbox.validate]
        cases hvv : Sandbox.validate allowed v with
        | error m => simp [hvv, exceptBind_error2]
        | ok u =>
          cases u
          have hnv : Sandbox.violation allowed v = false := by
            cases hq : Sandbox.violation allowed v
            · rfl
            · exact absurd hvv ((ih allowed hfun).1 v (by omega) hq)
          simp [hvv, exceptBind_ok2]
          have hvi : Sandbox.violation allowed i = true := by
            rcases hv with h1 | h1
            · rw [hnv] at h1; cases h1
            · exact h1
          exact (ih allowed hfun).1 i (by omega) hvi
      | sliceE lo hi st =>
        simp at he
        simp [Sandbox.violation] at hv
        simp [Sandbox.validate]
        cases hvl : Sandbox.validateOpt allowed lo with
        | error m => simp [hvl, exceptBind_error2]
        | ok u =>
          cases u
          have hnl : Sandbox.violationOpt allowed lo = false := by
            cases hq : Sandbox.violationOpt allowed lo
            · rfl
            · exact absurd hvl ((ih allowed hfun).2.2.1 lo (by omega) hq)
          simp [hvl, exceptBind_ok2]
          cases hvh : Sandbox.validateOpt allowed hi with
          | error m => simp [hvh, exceptBind_error2]
          | ok u =>
            cases u
            have hnh : Sandbox.violationOpt allowed hi = false := by
              cases hq : Sandbox.violationOpt allowed hi
              · rfl
              · exact absurd hvh ((ih allowed hfun).2.2.1 hi (by omega) hq)
            simp [hvh, exceptBind_ok2]
            have hvs : Sandbox.violationOpt allowed st = true := by
              rcases hv with (h1 | h1) | h1
              · rw [hnl] at h1; cases h1
              · rw [hnh] at h1; cases h1
              · exact h1
            exact (ih allowed hfun).2.2.1 st (by omega) hvs
      | attr v a =>
        simp at he
        simp [Sandbox.violation] at hv
        simp [Sandbox.validate]
        cases hab : Sandbox.attrBad a with
        | true => simp [hab]
        | false =>
          simp [hab]
          have hvv : Sandbox.violation allowed v = true := by
            rcases hv with h1 | h1
            · rw [hab] at h1; cases h1
            · exact h1
          exact (ih allowed hfun).1 v (by omega) hvv
      | ifExp c t e2 =>
        simp at he
        simp [Sandbox.violation] at hv
        simp [Sandbox.validate]
        cases hvc : Sandbox.validate allowed c with
        | error m => simp [hvc, exceptBind_error2]
        | ok u =>
          cases u
          have hnc : Sandbox.violation allowed c = false := by
            cases hq : Sandbox.violation allowed c
            · rfl
            · exact absurd hvc ((ih allowed hfun).1 c (by omega) hq)
          simp [hvc, exceptBind_ok2]
          cases hvt : Sandbox.validate allowed t with
          | error m => simp [hvt, exceptBind_error2]
          | ok u =>
            cases u
            have hnt : Sandbox.violation allowed t = false := by
              cases hq : Sandbox.violation allowed t
              · rfl
              · exact absurd hvt ((ih allowed hfun).1 t (by omega) hq)
            simp [hvt, exceptBind_ok2]
            have hve : Sandbox.violation allowed e2 = true := by
              rcases hv with (h1 | h1) | h1
              · rw [hnc] at h1; cases h1
              · rw [hnt] at h1; cases h1
              · exact h1
            exact (ih allowed hfun).1 e2 (by omega) hve
      | listComp elt gens =>
        simp at he
        simp [Sandbox.violation, Sandbox.compViolation] at hv
        simp [Sandbox.validate, Sandbox.validateCompExpr]
        rcases collectTargets_ok_or_err gens with hct | ⟨m, hct⟩
        · simp [hct, exceptBind_ok2]
          have hfun2 : ∀ f ∈ Sandbox.allowedFunctions,
              f ∈ allowed ++ Sandbox.targetsOf gens :=
            fun f hf => List.mem_append_left _ (hfun f hf)
          cases hvg : Sandbox.validateGens (allowed ++ Sandbox.targetsOf gens) gens with
          | error m2 => simp [hvg, exceptBind_error2]
          | ok u =>
            cases u
            have hng : Sandbox.gensViolation (allowed ++ Sandbox.targetsOf gens) gens = false := by
              cases hq : Sandbox.gensViolation (allowed ++ Sandbox.targetsOf gens) gens
              · rfl
              · exact absurd hvg ((ih _ hfun2).2.2.2 gens (by omega) hq)
            simp [hvg, exceptBind_ok2]
            have hve : Sandbox.violation (allowed ++ Sandbox.targetsOf gens) elt = true := by
              rcases hv with h1 | h1
              · rw [hng] at h1; cases h1
              · exact h1
            exact (ih _ hfun2).1 elt (by omega) hve
        · simp [hct, exceptBind_error2]
      | genExp elt gens =>
        simp at he
        simp [Sandbox.violation, Sandbox.compViolation] at hv
        simp [Sandbox.validate, Sandbox.validateCompExpr]
        rcases collectTargets_ok_or_err gens with hct | ⟨m, hct⟩
        · simp [hct, exceptBind_ok2]
          have hfun2 : ∀ f ∈ Sandbox.allowedFunctions,
              f ∈ allowed ++ Sandbox.targetsOf gens :=
            fun f hf => List.mem_append_left _ (hfun f hf)
          cases hvg : Sandbox.validateGens (allowed ++ Sandbox.targetsOf gens) gens with
          | error m2 => simp [hvg, exceptBind_error2]
          | ok u =>
            cases u
            have hng : Sandbox.gensViolation (allowed ++ Sandbox.targetsOf gens) gens = false := by
              cases hq : Sandbox.gensViolation (allowed ++ Sandbox.targetsOf gens) gens
              · rfl
              · exact absurd hvg ((ih _ hfun2).2.2.2 gens (by omega) hq)
            simp [hvg, exceptBind_ok2]
            have hve : Sandbox.violation (allowed ++ Sandbox.targetsOf gens) elt = true := by
              rcases hv with h1 | h1
              · rw [hng] at h1; cases h1
              · exact h1
            exact (ih _ hfun2).1 elt (by omega) hve
        · simp [hct, exceptBind_error2]
      | lambdaE b => simp [Sandbox.validate]
      | namedExpr t2 v2 => simp [Sandbox.validate]
      | setComp elt gens => simp [Sandbox.validate]
      | dictComp k2 v2 gens => simp [Sandbox.validate]
      | starred e1 => simp [Sandbox.validate]
      | joinedStr ps => simp [Sandbox.validate]
    · intro xs hxs hv
      cases xs with
      | nil => simp [Sandbox.violationList] at hv
      | cons e rest =>
        simp at hxs
        simp [Sandbox.violationList] at hv
        simp [Sandbox.validateList]
        cases hve : Sandbox.validate allowed e with
        | error m => simp [hve, exceptBind_error2]
        | ok u =>
          cases u
          have hne : Sandbox.violation allowed e = false := by
            cases hq : Sandbox.violation allowed e
            · rfl
            · exact absurd hve ((ih allowed hfun).1 e (by omega) hq)
          simp [hve, exceptBind_ok2]
          have hvr : Sandbox.violationList allowed rest = true := by
            rcases hv with h1 | h1
            · rw [hne] at h1; cases h1
            · exact h1
          exact (ih allowed hfun).2.1 rest (by omega) hvr
    · intro o ho hv
      cases o with
      | none => simp [Sandbox.violationOpt] at hv
      | some e =>
        simp at ho
        simp [Sandbox.violationOpt] at hv
        simp [Sandbox.validateOpt]
        exact (ih allowed hfun).1 e (by omega) hv
    · intro gens hg hv
      cases gens with
      | nil => simp [Sandbox.gensViolation] at hv
      | cons c rest =>
        obtain ⟨t, iter, ifs⟩ := c
        simp at hg
        simp [Sandbox.gensViolation] at hv
        simp [Sandbox.validateGens]
        cases hvi : Sandbox.validate allowed iter with
        | error m => simp [hvi, exceptBind_error2]
        | ok u =>
          cases u
          have hni : Sandbox.violation allowed iter = false := by
            cases hq : Sandbox.violation allowed iter
            · rfl
            · exact absurd hvi ((ih allowed hfun).1 iter (by omega) hq)
          simp [hvi, exceptBind_ok2]
          cases hvf : Sandbox.validateList allowed ifs with
          | error m => simp [hvf, exceptBind_error2]
          | ok u =>
            cases u
            have hnf : Sandbox.violationList allowed ifs = false := by
              cases hq : Sandbox.violationList allowed ifs
              · rfl
              · exact absurd hvf ((ih allowed hfun).2.1 ifs (by omega) hq)
            simp [hvf, exceptBind_ok2]
            have hvr : Sandbox.gensViolation allowed rest = true := by
              rcases hv with (h1 | h1) | h1
              · rw [hni] at h1; cases h1
              · rw [hnf] at h1; cases h1
              · exact h1
            exact (ih allowed hfun).2.2.2 rest (by omega) hvr

/-- C8: an expression containing a whitelist violation — a disallowed
node type (lambda, named expression, set/dict comprehension, starred,
f-string, disallowed operator), a name outside
\x7bbody, headers, context\x7d ∪ ALLOWED_FUNCTIONS plus the locally bound
comprehension targets, or an attribute outside ALLOWED_ATTRIBUTES or
starting with a double underscore — makes the safe evaluator return
ExpressionSecurityError, and the compiled evaluation is never reached:
the outcome does not depend on the evaluation oracle. -/
theorem sandbox_whitelist_enforced (e : Sandbox.Expr)
    (h : Sandbox.violation Sandbox.baseNames e = true) :
    (∀ oracle env,
      Sandbox.isSecurityError (Sandbox.evaluate oracle e env) = true) ∧
    (∀ o1 o2 env, Sandbox.evaluate o1 e env = Sandbox.evaluate o2 e env) := by
  have hfun : ∀ f ∈ Sandbox.allowedFunctions, f ∈ Sandbox.baseNames :=
    fun f hf => List.mem_append_right _ hf
  have hne := (validate_catches (sizeOf e) Sandbox.baseNames hfun).1 e le_rfl h
  cases hv : Sandbox.validate Sandbox.baseNames e with
  | ok u =>
    cases u
    exact absurd hv hne
  | error m =>
    refine ⟨fun oracle env => ?_, fun o1 o2 env => ?_⟩ <;>
      simp [Sandbox.evaluate, hv, Sandbox.isSecurityError]

theorem sandbox_whitelist_enforced_witness :
    Sandbox.violation Sandbox.baseNames (.name "open") = true ∧
    Sandbox.isSecurityError
      (Sandbox.evaluate (fun _ _ => .error .timeout) (.name "open")
        ⟨.none, [], []⟩) = true := by
  have h : Sandbox.violation Sandbox.baseNames (.name "open") = true := by
    simp [Sandbox.violation, Sandbox.baseNames, Sandbox.allowedFunctions]
  exact ⟨h, (sandbox_whitelist_enforced (.name "open") h).1 _ _⟩

end Windtunnel


